import Mathlib

/-! Commits graph renderer (`jquery.commits-graph.js`).

A shallow embedding of the canvas renderer of the commits graph.

* JavaScript numbers that come from the layout input (lanes, branch indices) are
  integers (`Int`); pixel quantities (step sizes, width, scale factor, radius,
  line width) are rationals (`ℚ`): every double is a rational number.
* The arithmetic of the program is written out twice. The first set of
  definitions (`Route.drawRoute`, `Commit.drawDot`, `Graph.options`, ...) computes
  with exact results. The second set (`Route.drawRouteFl`, `Commit.drawDotFl`,
  `Graph.optionsFl`, ..., section "Double arithmetic") rounds the result of every
  operation with a function `fl`; at `fl = round64`, rounding to the nearest
  double, it is the arithmetic of JavaScript, and at `fl = id` it is the first
  set (`drawRouteFl_id`, `renderFl_id`).
* The canvas attributes `width` and `height` hold integers (`canvasAttribute`).
* `Math.PI` is not a rational number: it is passed around as the parameter `PI`.
* The 2-D canvas context is modelled by the trace of the calls made on it
  (`CanvasOp`) together with a small interpreter of that trace (`Ctx`, `paint`).
* An array access outside of the array gives `undefined`, modelled by `none`.
-/

namespace CommitsGraph

/-! ## Input data -/

/-- A raw route descriptor `[from, to, branch]` of the layout input (`from` and
`to` are reserved words, hence `from_` and `to_`). -/
structure RawRoute where
  from_ : Int
  to_ : Int
  branch : Int
deriving DecidableEq, Repr

/-- A raw commit `[sha, [lane, branch], routes]` of the layout input. The dot
descriptor `[lane, branch]` is the pair `dot`. -/
structure RawCommit where
  sha : String
  dot : Int × Int
  routes : List RawRoute
deriving DecidableEq, Repr

/-- The option `orientation`. The code only ever tests
`"horizontal" === orientation`; every other value takes the vertical path. -/
inductive Orientation where
  | vertical
  | horizontal
deriving DecidableEq, Repr

/-- The merged options object, after `GraphCanvas` has stored `scaleFactor` in it. -/
structure Options where
  height : ℚ
  width : ℚ
  y_step : ℚ
  x_step : ℚ
  orientation : Orientation
  dotRadius : ℚ
  lineWidth : ℚ
  scaleFactor : ℚ
deriving DecidableEq

/-! ## `GraphCanvas.colors` and `GraphCanvas.prototype.get_color` -/

/-- The literal `c.colors` of `GraphCanvas`. -/
def colors : List String :=
  ["#e11d21", "#fbca04", "#009800", "#006b75", "#207de5", "#0052cc", "#5319e7",
   "#f7c6c7", "#fad8c7", "#fef2c0", "#bfe5bf", "#c7def8", "#bfdadc", "#bfd4f2",
   "#d4c5f9", "#cccccc", "#84b6eb", "#e6e6e6", "#ffffff", "#cc317c"]

/-- Array indexing `b.colors[i]` with an integer index: a negative index is not
an element index and gives `undefined`. -/
def colorsAt (i : Int) : Option String :=
  if 0 ≤ i then colors[i.toNat]? else none

/-- Function `GraphCanvas.prototype.get_color`: `c = b.colors.length; return b.colors[a % c]`.
The JavaScript `%` is the truncating remainder `Int.tmod`. -/
def get_color (a : Int) : Option String :=
  let c : Int := colors.length
  colorsAt (a.tmod c)

/-! ## `branchCount` -/

/-- Body of the inner loop of `branchCount` for one route:
`(b < r[0] || b < r[1]) && (b = Math.max(r[0], r[1]))`. -/
def branchCountRoute (b : Int) (r : RawRoute) : Int :=
  if b < r.from_ ∨ b < r.to_ then max r.from_ r.to_ else b

/-- The inner loop of `branchCount` over the routes `a[c][2]` of one commit. -/
def branchCountCommit (b : Int) (c : RawCommit) : Int :=
  c.routes.foldl branchCountRoute b

/-- Function `branchCount`: `b = -1`, the two nested loops, `return b + 1`. -/
def branchCount (a : List RawCommit) : Int :=
  a.foldl branchCountCommit (-1) + 1

/-- All `from` and `to` lanes of all routes of all commits, in input order. -/
def routeLanes (a : List RawCommit) : List Int :=
  a.flatMap (fun c => c.routes.flatMap (fun r => [r.from_, r.to_]))

/-! ## The objects `Route` and `Commit` -/

/-- The object built by `function Route(a, b, c)`. Of the owning commit `a` the
route only ever reads `a.idx` (and `a.graph.get_color`), so the back reference
`d.commit` is stored as `commit_idx`. -/
structure Route where
  commit_idx : Nat
  options : Options
  from_ : Int
  to_ : Int
  branch : Int
deriving DecidableEq

/-- Constructor `function Route(a, b, c)`:
`d.commit = a, d.options = c, d.from = b[0], d.to = b[1], d.branch = b[2]`. -/
def newRoute (a_idx : Nat) (b : RawRoute) (c : Options) : Route :=
  { commit_idx := a_idx, options := c, from_ := b.from_, to_ := b.to_, branch := b.branch }

/-- The object built by `function Commit(a, b, c, d)`. -/
structure Commit where
  idx : Nat
  options : Options
  sha : String
  dot : Int × Int
  dot_offset : Int
  dot_branch : Int
  routes : List Route
deriving DecidableEq

/-- Constructor `function Commit(a, b, c, d)`:
`e.idx = b, e.options = d, e.sha = c[0], e.dot = c[1], e.dot_offset = e.dot[0],
e.dot_branch = e.dot[0], e.routes = $.map(c[2], function(a) { return new Route(e, a, d) })`. -/
def newCommit (b : Nat) (c : RawCommit) (d : Options) : Commit :=
  { idx := b, options := d, sha := c.sha, dot := c.dot,
    dot_offset := c.dot.1, dot_branch := c.dot.1,
    routes := c.routes.map (fun a => newRoute b a d) }

/-! ## The canvas context -/

/-- The calls made on the 2-D context `a` (`b` in `draw`), in the order made. An
assignment to `strokeStyle`/`fillStyle` carries the value returned by
`get_color`, which is `none` when that was `undefined`. -/
inductive CanvasOp where
  | setLineWidth (w : ℚ)
  | setStrokeStyle (c : Option String)
  | setFillStyle (c : Option String)
  | beginPath
  | moveTo (x y : ℚ)
  | lineTo (x y : ℚ)
  | bezierCurveTo (cp1x cp1y cp2x cp2y x y : ℚ)
  | arc (x y radius startAngle endAngle : ℚ) (anticlockwise : Bool)
  | stroke
  | fill
deriving DecidableEq

/-- Function `Route.prototype.drawRoute`, as the calls it makes on the context,
every arithmetic operation with its exact result (`Route.drawRouteFl` has each
result rounded). -/
def Route.drawRoute (b : Route) : List CanvasOp :=
  match b.options.orientation with
  | Orientation.horizontal =>
    let c := b.options.width * b.options.scaleFactor
              - ((b.commit_idx : ℚ) + 1/2) * b.options.x_step * b.options.scaleFactor
    let d := ((b.from_ : ℚ) + 1) * b.options.y_step * b.options.scaleFactor
    let e := b.options.width * b.options.scaleFactor
              - ((b.commit_idx : ℚ) + 1/2 + 1) * b.options.x_step * b.options.scaleFactor
    let f := ((b.to_ : ℚ) + 1) * b.options.y_step * b.options.scaleFactor
    [CanvasOp.setStrokeStyle (get_color b.branch), CanvasOp.beginPath, CanvasOp.moveTo c d]
    ++ (if d = f then [CanvasOp.lineTo e f]
        else if d > f then
          [CanvasOp.bezierCurveTo
            (c - b.options.x_step * b.options.scaleFactor / 3 * 2)
            (d + b.options.y_step * b.options.scaleFactor / 4)
            (e + b.options.x_step * b.options.scaleFactor / 3 * 2)
            (f - b.options.y_step * b.options.scaleFactor / 4) e f]
        else if f > d then
          [CanvasOp.bezierCurveTo
            (c - b.options.x_step * b.options.scaleFactor / 3 * 2)
            (d - b.options.y_step * b.options.scaleFactor / 4)
            (e + b.options.x_step * b.options.scaleFactor / 3 * 2)
            (f + b.options.y_step * b.options.scaleFactor / 4) e f]
        else [])
    ++ [CanvasOp.stroke]
  | Orientation.vertical =>
    let g := ((b.from_ : ℚ) + 1) * b.options.x_step * b.options.scaleFactor
    let h := ((b.commit_idx : ℚ) + 1/2) * b.options.y_step * b.options.scaleFactor
    let i := ((b.to_ : ℚ) + 1) * b.options.x_step * b.options.scaleFactor
    let j := ((b.commit_idx : ℚ) + 1/2 + 1) * b.options.y_step * b.options.scaleFactor
    [CanvasOp.setStrokeStyle (get_color b.branch), CanvasOp.beginPath, CanvasOp.moveTo g h]
    ++ (if g = i then [CanvasOp.lineTo i j]
        else
          [CanvasOp.bezierCurveTo
            (g - b.options.x_step * b.options.scaleFactor / 4)
            (h + b.options.y_step * b.options.scaleFactor / 3 * 2)
            (i + b.options.x_step * b.options.scaleFactor / 4)
            (j - b.options.y_step * b.options.scaleFactor / 3 * 2) i j])
    ++ [CanvasOp.stroke]

/-- Function `Commit.prototype.drawDot`, as the calls it makes on the context,
every arithmetic operation with its exact result (`Commit.drawDotFl` has each
result rounded); `PI` stands for `Math.PI`. -/
def Commit.drawDot (PI : ℚ) (b : Commit) : List CanvasOp :=
  let c := b.options.dotRadius
  match b.options.orientation with
  | Orientation.horizontal =>
    let d := b.options.width * b.options.scaleFactor
              - ((b.idx : ℚ) + 1/2) * b.options.x_step * b.options.scaleFactor
    let e := ((b.dot_offset : ℚ) + 1) * b.options.y_step * b.options.scaleFactor
    [CanvasOp.setFillStyle (get_color b.dot_branch), CanvasOp.beginPath,
     CanvasOp.arc d e (c * b.options.scaleFactor) 0 (2 * PI) true, CanvasOp.fill]
  | Orientation.vertical =>
    let f := ((b.dot_offset : ℚ) + 1) * b.options.x_step * b.options.scaleFactor
    let g := ((b.idx : ℚ) + 1/2) * b.options.y_step * b.options.scaleFactor
    [CanvasOp.setFillStyle (get_color b.dot_branch), CanvasOp.beginPath,
     CanvasOp.arc f g (c * b.options.scaleFactor) 0 (2 * PI) true, CanvasOp.fill]

/-! ## `GraphCanvas.prototype.draw` -/

/-- The fields of a `GraphCanvas` that `draw` reads. -/
structure GraphCanvas where
  data : List RawCommit
  options : Options

/-- The inner loop of `draw`: `for (f = 0; f < e.routes.length; f++) e.routes[f].drawRoute(b)`. -/
def drawRoutes : List Route → List CanvasOp
  | [] => []
  | g :: rest => g.drawRoute ++ drawRoutes rest

/-- The outer loop of `draw` from index `d` on, `rest` being `a.data` from `d` on:
`e = new Commit(a, d, a.data[d], a.options)`, the inner loop, `e.drawDot(b)`, `d++`. -/
def drawFrom (PI : ℚ) (options : Options) : Nat → List RawCommit → List CanvasOp
  | _, [] => []
  | d, x :: rest =>
    drawRoutes (newCommit d x options).routes ++ (newCommit d x options).drawDot PI
      ++ drawFrom PI options (d + 1) rest

/-- Function `GraphCanvas.prototype.draw`: `b.lineWidth = a.options.lineWidth`, then
the loop over `a.data` from `d = 0` (the `console.log` does not touch the canvas). -/
def GraphCanvas.draw (PI : ℚ) (a : GraphCanvas) : List CanvasOp :=
  CanvasOp.setLineWidth a.options.lineWidth :: drawFrom PI a.options 0 a.data

/-! ## A reading of the canvas calls

What the calls paint, following the HTML canvas 2-D context: the context keeps a
current line width, stroke style, fill style and path; `stroke()` and `fill()`
paint the current path with the styles then in effect. -/

/-- A segment of the current path. -/
inductive PathSeg where
  | moveTo (x y : ℚ)
  | lineTo (x y : ℚ)
  | bezierCurveTo (cp1x cp1y cp2x cp2y x y : ℚ)
  | arc (x y radius startAngle endAngle : ℚ) (anticlockwise : Bool)
deriving DecidableEq

/-- The drawing state of the 2-D context. -/
structure Ctx where
  lineWidth : ℚ
  strokeStyle : String
  fillStyle : String
  path : List PathSeg
deriving DecidableEq

/-- The state of a context just obtained from `canvas.getContext("2d")`. -/
def Ctx.fresh : Ctx :=
  { lineWidth := 1, strokeStyle := "#000000", fillStyle := "#000000", path := [] }

/-- A shape painted on the surface. -/
inductive Painted where
  | stroked (path : List PathSeg) (strokeStyle : String) (lineWidth : ℚ)
  | filled (path : List PathSeg) (fillStyle : String)
deriving DecidableEq

/-- One call on the context: the next state and what it paints. Assigning a line
width that is not positive, or a style that is not a colour, leaves the
attribute unchanged. -/
def Ctx.step (s : Ctx) : CanvasOp → Ctx × List Painted
  | CanvasOp.setLineWidth w => (if 0 < w then { s with lineWidth := w } else s, [])
  | CanvasOp.setStrokeStyle (some c) => ({ s with strokeStyle := c }, [])
  | CanvasOp.setStrokeStyle none => (s, [])
  | CanvasOp.setFillStyle (some c) => ({ s with fillStyle := c }, [])
  | CanvasOp.setFillStyle none => (s, [])
  | CanvasOp.beginPath => ({ s with path := [] }, [])
  | CanvasOp.moveTo x y => ({ s with path := s.path ++ [PathSeg.moveTo x y] }, [])
  | CanvasOp.lineTo x y => ({ s with path := s.path ++ [PathSeg.lineTo x y] }, [])
  | CanvasOp.bezierCurveTo a b c d x y =>
    ({ s with path := s.path ++ [PathSeg.bezierCurveTo a b c d x y] }, [])
  | CanvasOp.arc x y r a0 a1 acw => ({ s with path := s.path ++ [PathSeg.arc x y r a0 a1 acw] }, [])
  | CanvasOp.stroke => (s, [Painted.stroked s.path s.strokeStyle s.lineWidth])
  | CanvasOp.fill => (s, [Painted.filled s.path s.fillStyle])

/-- A sequence of calls on the context: the final state and the shapes painted, in order. -/
def Ctx.run (s : Ctx) : List CanvasOp → Ctx × List Painted
  | [] => (s, [])
  | op :: ops => (((s.step op).1.run ops).1, (s.step op).2 ++ ((s.step op).1.run ops).2)

/-- The shapes painted by a sequence of calls on a fresh context. -/
def paint (ops : List CanvasOp) : List Painted :=
  (Ctx.fresh.run ops).2

/-! ## Geometry, as the specification words it -/

/-- The pixel position of sequence index `i` and lane `l` as the specification
gives it (§4.1): vertical `x = (l + 1) * step_lane * scale`,
`y = (i + 0.5) * step_primary * scale` with `step_lane = x_step`,
`step_primary = y_step`; horizontal `x = width*scale - (i + 0.5) * step_primary * scale`,
`y = (l + 1) * step_lane * scale` with `step_primary = x_step`, `step_lane = y_step`. -/
def specPosition (o : Options) (i : ℚ) (l : ℚ) : ℚ × ℚ :=
  match o.orientation with
  | Orientation.vertical => ((l + 1) * o.x_step * o.scaleFactor, (i + 1/2) * o.y_step * o.scaleFactor)
  | Orientation.horizontal =>
    (o.width * o.scaleFactor - (i + 1/2) * o.x_step * o.scaleFactor, (l + 1) * o.y_step * o.scaleFactor)

/-- The lane-axis step: `x_step` in vertical orientation, `y_step` in horizontal. -/
def laneStep (o : Options) : ℚ :=
  match o.orientation with
  | Orientation.vertical => o.x_step
  | Orientation.horizontal => o.y_step

/-- The primary-axis step: `y_step` in vertical orientation, `x_step` in horizontal. -/
def primaryStep (o : Options) : ℚ :=
  match o.orientation with
  | Orientation.vertical => o.y_step
  | Orientation.horizontal => o.x_step

/-- The cross-axis (lane) coordinate of a point: `x` in vertical orientation, `y` in horizontal. -/
def crossCoord (o : Options) (p : ℚ × ℚ) : ℚ :=
  match o.orientation with
  | Orientation.vertical => p.1
  | Orientation.horizontal => p.2

/-- The primary-axis coordinate of a point: `y` in vertical orientation, `x` in horizontal. -/
def primaryCoord (o : Options) (p : ℚ × ℚ) : ℚ :=
  match o.orientation with
  | Orientation.vertical => p.2
  | Orientation.horizontal => p.1

/-- Whether a painted shape is a stroked path (a route) rather than a filled one (a dot). -/
def Painted.isStroke : Painted → Bool
  | Painted.stroked _ _ _ => true
  | Painted.filled _ _ => false

/-! ## `backingScale`, the constructor `GraphCanvas` and `Graph` -/

/-- Function `backingScale`:
`"devicePixelRatio" in window && window.devicePixelRatio > 1 ? window.devicePixelRatio : 1`.
The argument is `window.devicePixelRatio`, `none` when the window has no such property. -/
def backingScale (devicePixelRatio : Option ℚ) : ℚ :=
  match devicePixelRatio with
  | some r => if r > 1 then r else 1
  | none => 1

/-- The options object `b` handed to `GraphCanvas`, before `scaleFactor` is stored in it. -/
structure LayoutOptions where
  height : ℚ
  width : ℚ
  y_step : ℚ
  x_step : ℚ
  orientation : Orientation
  dotRadius : ℚ
  lineWidth : ℚ
deriving DecidableEq

/-- The integer part of a number (truncation toward zero), the first step of the
conversion of a value assigned to an attribute of type `unsigned long`. -/
def integerPart (v : ℚ) : ℤ :=
  if 0 ≤ v then ⌊v⌋ else ⌈v⌉

/-- The value that the canvas attribute `width` (default 300) or `height` (default
150) holds after `canvas.width = v`: the attributes are of type `unsigned long`,
so `v` is converted to its integer part modulo `2^32`, and a value above
`2147483647` is replaced by the default of the attribute. Reading the attribute
back gives this integer. -/
def canvasAttribute (dflt : ℕ) (v : ℚ) : ℚ :=
  if integerPart v % 4294967296 > 2147483647 then (dflt : ℚ)
  else ((integerPart v % 4294967296 : ℤ) : ℚ)

/-- The attributes of the canvas element that `GraphCanvas` assigns:
`canvas.style.height`, `canvas.style.width` (in `px`), and the integer attributes
`canvas.height`, `canvas.width` (the size of the backing store). -/
structure CanvasElement where
  style_height : ℚ
  style_width : ℚ
  height : ℚ
  width : ℚ
deriving DecidableEq

/-- Constructor `function GraphCanvas(a, b)`: the object (the fields `draw` reads,
with `c.options.scaleFactor = d` stored) and its canvas element. The products
`c.canvas.width * d` and `c.canvas.height * d` are taken of the attributes read back. -/
def newGraphCanvas (devicePixelRatio : Option ℚ) (a : List RawCommit) (b : LayoutOptions) :
    GraphCanvas × CanvasElement :=
  let canvas : CanvasElement :=
    { style_height := b.height, style_width := b.width,
      height := canvasAttribute 150 b.height, width := canvasAttribute 300 b.width }
  let d := backingScale devicePixelRatio
  let canvas : CanvasElement :=
    match b.orientation with
    | Orientation.horizontal =>
      if 1 > d then
        { canvas with width := canvasAttribute 300 (canvas.width * d),
                      height := canvasAttribute 150 (canvas.height * d) }
      else canvas
    | Orientation.vertical =>
      if d > 1 then
        { canvas with width := canvasAttribute 300 (canvas.width * d),
                      height := canvasAttribute 150 (canvas.height * d) }
      else canvas
  ({ data := a,
     options :=
      { height := b.height, width := b.width, y_step := b.y_step, x_step := b.x_step,
        orientation := b.orientation, dotRadius := b.dotRadius, lineWidth := b.lineWidth,
        scaleFactor := d } },
   canvas)

/-- The options object `b` given by the caller of `Graph`: every recognised
property may be absent (`none`). -/
structure UserOptions where
  height : Option ℚ
  width : Option ℚ
  y_step : Option ℚ
  x_step : Option ℚ
  orientation : Option Orientation
  dotRadius : Option ℚ
  lineWidth : Option ℚ
deriving DecidableEq

/-- The literal `d` of `Graph`. -/
def Graph.defaults : LayoutOptions :=
  { height := 800, width := 200, y_step := 20, x_step := 20,
    orientation := Orientation.vertical, dotRadius := 3, lineWidth := 2 }

/-- The call `$.extend({}, d, b)`: the properties of `d`, overwritten by those present in `b`. -/
def extend (d : LayoutOptions) (b : UserOptions) : LayoutOptions :=
  { height := b.height.getD d.height, width := b.width.getD d.width,
    y_step := b.y_step.getD d.y_step, x_step := b.x_step.getD d.x_step,
    orientation := b.orientation.getD d.orientation,
    dotRadius := b.dotRadius.getD d.dotRadius, lineWidth := b.lineWidth.getD d.lineWidth }

/-- The field `c.options` computed by `function Graph(a, b)` for the data `c.data`:
`e` and `f` are the merged steps, `d.width` and `d.height` are overwritten by the
computed extents (tested on `b.orientation`), then `c.options = $.extend({}, d, b)`. -/
def Graph.options (data : List RawCommit) (b : UserOptions) : LayoutOptions :=
  let d := Graph.defaults
  let e := (extend d b).x_step
  let f := (extend d b).y_step
  let d : LayoutOptions :=
    if b.orientation = some Orientation.horizontal then
      { d with width := ((data.length : ℚ) + 2) * e,
               height := ((branchCount data : ℚ) + 1/2) * f }
    else
      { d with width := ((branchCount data : ℚ) + 1/2) * e,
               height := ((data.length : ℚ) + 2) * f }
  extend d b

/-- The rest of `Graph`: `applyTemplate` builds `new GraphCanvas(a.data, a.options)` and
`toHTML` calls `draw`. The result is the canvas element and the calls made on its context. -/
def Graph.render (devicePixelRatio : Option ℚ) (PI : ℚ) (data : List RawCommit)
    (b : UserOptions) : CanvasElement × List CanvasOp :=
  let gc := newGraphCanvas devicePixelRatio data (Graph.options data b)
  (gc.2, gc.1.draw PI)

/-- A caller's options object without any property: `{}`. -/
def noOptions : UserOptions :=
  { height := none, width := none, y_step := none, x_step := none, orientation := none,
    dotRadius := none, lineWidth := none }

/-! ## Double arithmetic

The definitions above compute over the exact rationals. JavaScript numbers are
doubles: the result of an arithmetic operation is the exact result rounded to a
double. The definitions below repeat the program with every arithmetic result
passed through a rounding function `fl`; numbers of the input are doubles to
begin with. The program is the instance `fl = round64` (rounding to the nearest
double, defined below; results outside of the finite range of doubles are not
modelled); with `fl = id` the definitions are those above. -/

/-- Quarter-integers: the numbers `n / 4` with `n` an integer. -/
def QuarterInteger (x : ℚ) : Prop :=
  ∃ n : ℤ, x = (n : ℚ) / 4

/-- A property of rounding to the nearest double: a quarter-integer of magnitude
below `2^51` is a double (its numerator is below `2^53`), so it is left unchanged. -/
def ExactOnQuarterIntegers (fl : ℚ → ℚ) : Prop :=
  ∀ x : ℚ, QuarterInteger x → |x| < 2 ^ 51 → fl x = x

/-- Rounding of a rational to the nearest integer, ties to the even one. -/
def roundHalfEven (q : ℚ) : ℤ :=
  if q - ⌊q⌋ < 1 / 2 then ⌊q⌋
  else if 1 / 2 < q - ⌊q⌋ then ⌊q⌋ + 1
  else if ⌊q⌋ % 2 = 0 then ⌊q⌋ else ⌊q⌋ + 1

/-- The exponent `e` of the binade `2^e <= |q| < 2^(e+1)` of a double, not below the
least exponent `-1022` of the normal range (below it doubles are evenly spaced). -/
def binade (q : ℚ) : ℤ :=
  max (Int.log 2 |q|) (-1022)

/-- Rounding to the nearest double (IEEE 754 binary64, ties to even): doubles in
the binade of exponent `e` are the multiples of `2^(e - 52)` (53 significant
bits). Results beyond the largest finite double are not modelled. -/
def round64 (q : ℚ) : ℚ :=
  (roundHalfEven (q / 2 ^ (binade q - 52)) : ℚ) * 2 ^ (binade q - 52)

/-- Inputs of `drawRoute` on which every operation is exact in double arithmetic:
the steps, the scale factor and the width are integers, the scaled primary step is
a multiple of 3 (so that the division by 3 is exact), and index, lanes and
options are at most 32768 in magnitude (every intermediate result is then a
quarter-integer below `2^51`). -/
def ExactRouteInput (i : ℕ) (r : RawRoute) (o : Options) : Prop :=
  ∃ a b s w k : ℤ, o.x_step = (a : ℚ) ∧ o.y_step = (b : ℚ) ∧ o.scaleFactor = (s : ℚ) ∧
    o.width = (w : ℚ) ∧ primaryStep o * o.scaleFactor = 3 * (k : ℚ) ∧
    i ≤ 32768 ∧ |r.from_| ≤ 32768 ∧ |r.to_| ≤ 32768 ∧
    |a| ≤ 32768 ∧ |b| ≤ 32768 ∧ |s| ≤ 32768 ∧ |w| ≤ 32768

/-- The pixel position of sequence index `i` and lane `l` by the formulas of the
specification (§4.1), each operation rounded, in the order of the code:
`(l + 1) * step * scale`, `(i + .5) * step * scale`, `width * scale - ...`. -/
def flPosition (fl : ℚ → ℚ) (o : Options) (i : ℚ) (l : ℚ) : ℚ × ℚ :=
  match o.orientation with
  | Orientation.vertical =>
    (fl (fl (fl (l + 1) * o.x_step) * o.scaleFactor),
     fl (fl (fl (i + 1/2) * o.y_step) * o.scaleFactor))
  | Orientation.horizontal =>
    (fl (fl (o.width * o.scaleFactor) - fl (fl (fl (i + 1/2) * o.x_step) * o.scaleFactor)),
     fl (fl (fl (l + 1) * o.y_step) * o.scaleFactor))

/-- Function `Route.prototype.drawRoute` in double arithmetic. -/
def Route.drawRouteFl (fl : ℚ → ℚ) (b : Route) : List CanvasOp :=
  match b.options.orientation with
  | Orientation.horizontal =>
    let c := fl (fl (b.options.width * b.options.scaleFactor)
              - fl (fl (fl ((b.commit_idx : ℚ) + 1/2) * b.options.x_step) * b.options.scaleFactor))
    let d := fl (fl (fl ((b.from_ : ℚ) + 1) * b.options.y_step) * b.options.scaleFactor)
    let e := fl (fl (b.options.width * b.options.scaleFactor)
              - fl (fl (fl (fl ((b.commit_idx : ℚ) + 1/2) + 1) * b.options.x_step)
                  * b.options.scaleFactor))
    let f := fl (fl (fl ((b.to_ : ℚ) + 1) * b.options.y_step) * b.options.scaleFactor)
    [CanvasOp.setStrokeStyle (get_color b.branch), CanvasOp.beginPath, CanvasOp.moveTo c d]
    ++ (if d = f then [CanvasOp.lineTo e f]
        else if d > f then
          [CanvasOp.bezierCurveTo
            (fl (c - fl (fl (fl (b.options.x_step * b.options.scaleFactor) / 3) * 2)))
            (fl (d + fl (fl (b.options.y_step * b.options.scaleFactor) / 4)))
            (fl (e + fl (fl (fl (b.options.x_step * b.options.scaleFactor) / 3) * 2)))
            (fl (f - fl (fl (b.options.y_step * b.options.scaleFactor) / 4))) e f]
        else if f > d then
          [CanvasOp.bezierCurveTo
            (fl (c - fl (fl (fl (b.options.x_step * b.options.scaleFactor) / 3) * 2)))
            (fl (d - fl (fl (b.options.y_step * b.options.scaleFactor) / 4)))
            (fl (e + fl (fl (fl (b.options.x_step * b.options.scaleFactor) / 3) * 2)))
            (fl (f + fl (fl (b.options.y_step * b.options.scaleFactor) / 4))) e f]
        else [])
    ++ [CanvasOp.stroke]
  | Orientation.vertical =>
    let g := fl (fl (fl ((b.from_ : ℚ) + 1) * b.options.x_step) * b.options.scaleFactor)
    let h := fl (fl (fl ((b.commit_idx : ℚ) + 1/2) * b.options.y_step) * b.options.scaleFactor)
    let i := fl (fl (fl ((b.to_ : ℚ) + 1) * b.options.x_step) * b.options.scaleFactor)
    let j := fl (fl (fl (fl ((b.commit_idx : ℚ) + 1/2) + 1) * b.options.y_step)
              * b.options.scaleFactor)
    [CanvasOp.setStrokeStyle (get_color b.branch), CanvasOp.beginPath, CanvasOp.moveTo g h]
    ++ (if g = i then [CanvasOp.lineTo i j]
        else
          [CanvasOp.bezierCurveTo
            (fl (g - fl (fl (b.options.x_step * b.options.scaleFactor) / 4)))
            (fl (h + fl (fl (fl (b.options.y_step * b.options.scaleFactor) / 3) * 2)))
            (fl (i + fl (fl (b.options.x_step * b.options.scaleFactor) / 4)))
            (fl (j - fl (fl (fl (b.options.y_step * b.options.scaleFactor) / 3) * 2))) i j])
    ++ [CanvasOp.stroke]

/-- Function `Commit.prototype.drawDot` in double arithmetic. -/
def Commit.drawDotFl (fl : ℚ → ℚ) (PI : ℚ) (b : Commit) : List CanvasOp :=
  let c := b.options.dotRadius
  match b.options.orientation with
  | Orientation.horizontal =>
    let d := fl (fl (b.options.width * b.options.scaleFactor)
              - fl (fl (fl ((b.idx : ℚ) + 1/2) * b.options.x_step) * b.options.scaleFactor))
    let e := fl (fl (fl ((b.dot_offset : ℚ) + 1) * b.options.y_step) * b.options.scaleFactor)
    [CanvasOp.setFillStyle (get_color b.dot_branch), CanvasOp.beginPath,
     CanvasOp.arc d e (fl (c * b.options.scaleFactor)) 0 (fl (2 * PI)) true, CanvasOp.fill]
  | Orientation.vertical =>
    let f := fl (fl (fl ((b.dot_offset : ℚ) + 1) * b.options.x_step) * b.options.scaleFactor)
    let g := fl (fl (fl ((b.idx : ℚ) + 1/2) * b.options.y_step) * b.options.scaleFactor)
    [CanvasOp.setFillStyle (get_color b.dot_branch), CanvasOp.beginPath,
     CanvasOp.arc f g (fl (c * b.options.scaleFactor)) 0 (fl (2 * PI)) true, CanvasOp.fill]

/-- The inner loop of `draw` in double arithmetic. -/
def drawRoutesFl (fl : ℚ → ℚ) : List Route → List CanvasOp
  | [] => []
  | g :: rest => g.drawRouteFl fl ++ drawRoutesFl fl rest

/-- The outer loop of `draw` in double arithmetic. -/
def drawFromFl (fl : ℚ → ℚ) (PI : ℚ) (options : Options) : Nat → List RawCommit → List CanvasOp
  | _, [] => []
  | d, x :: rest =>
    drawRoutesFl fl (newCommit d x options).routes ++ (newCommit d x options).drawDotFl fl PI
      ++ drawFromFl fl PI options (d + 1) rest

/-- Function `GraphCanvas.prototype.draw` in double arithmetic. -/
def GraphCanvas.drawFl (fl : ℚ → ℚ) (PI : ℚ) (a : GraphCanvas) : List CanvasOp :=
  CanvasOp.setLineWidth a.options.lineWidth :: drawFromFl fl PI a.options 0 a.data

/-- Function `branchCount` in double arithmetic: the comparisons and `Math.max` of
the loops are exact, the final `b + 1` is rounded. -/
def branchCountFl (fl : ℚ → ℚ) (a : List RawCommit) : ℚ :=
  fl (((a.foldl branchCountCommit (-1) : ℤ) : ℚ) + 1)

/-- The field `c.options` of `Graph` in double arithmetic. -/
def Graph.optionsFl (fl : ℚ → ℚ) (data : List RawCommit) (b : UserOptions) : LayoutOptions :=
  let d := Graph.defaults
  let e := (extend d b).x_step
  let f := (extend d b).y_step
  let d : LayoutOptions :=
    if b.orientation = some Orientation.horizontal then
      { d with width := fl (fl ((data.length : ℚ) + 2) * e),
               height := fl (fl (branchCountFl fl data + 1/2) * f) }
    else
      { d with width := fl (fl (branchCountFl fl data + 1/2) * e),
               height := fl (fl ((data.length : ℚ) + 2) * f) }
  extend d b

/-- Constructor `function GraphCanvas(a, b)` in double arithmetic: the products
`c.canvas.width * d` and `c.canvas.height * d` are rounded before they are assigned. -/
def newGraphCanvasFl (fl : ℚ → ℚ) (devicePixelRatio : Option ℚ) (a : List RawCommit)
    (b : LayoutOptions) : GraphCanvas × CanvasElement :=
  let canvas : CanvasElement :=
    { style_height := b.height, style_width := b.width,
      height := canvasAttribute 150 b.height, width := canvasAttribute 300 b.width }
  let d := backingScale devicePixelRatio
  let canvas : CanvasElement :=
    match b.orientation with
    | Orientation.horizontal =>
      if 1 > d then
        { canvas with width := canvasAttribute 300 (fl (canvas.width * d)),
                      height := canvasAttribute 150 (fl (canvas.height * d)) }
      else canvas
    | Orientation.vertical =>
      if d > 1 then
        { canvas with width := canvasAttribute 300 (fl (canvas.width * d)),
                      height := canvasAttribute 150 (fl (canvas.height * d)) }
      else canvas
  ({ data := a,
     options :=
      { height := b.height, width := b.width, y_step := b.y_step, x_step := b.x_step,
        orientation := b.orientation, dotRadius := b.dotRadius, lineWidth := b.lineWidth,
        scaleFactor := d } },
   canvas)

/-- `Graph`, `applyTemplate`, `GraphCanvas` and `draw` in double arithmetic: the canvas
element and the calls made on its context. -/
def Graph.renderFl (fl : ℚ → ℚ) (devicePixelRatio : Option ℚ) (PI : ℚ) (data : List RawCommit)
    (b : UserOptions) : CanvasElement × List CanvasOp :=
  let gc := newGraphCanvasFl fl devicePixelRatio data (Graph.optionsFl fl data b)
  (gc.2, gc.1.drawFl fl PI)

/-! ## Points of a drawing -/

/-- The point at which a call positions something: the centre of an `arc`, the
point of a `moveTo` or `lineTo`, the end point of a `bezierCurveTo`. -/
def CanvasOp.point : CanvasOp → Option (ℚ × ℚ)
  | CanvasOp.moveTo x y => some (x, y)
  | CanvasOp.lineTo x y => some (x, y)
  | CanvasOp.bezierCurveTo _ _ _ _ x y => some (x, y)
  | CanvasOp.arc x y _ _ _ _ => some (x, y)
  | _ => none

/-- The origin of a path: the point of its first `moveTo`. -/
def pathOrigin (ops : List CanvasOp) : Option (ℚ × ℚ) :=
  ops.findSome? (fun op => match op with
    | CanvasOp.moveTo x y => some (x, y)
    | _ => none)

/-- The destination of a path: the end point of its first `lineTo` or `bezierCurveTo`. -/
def pathDestination (ops : List CanvasOp) : Option (ℚ × ℚ) :=
  ops.findSome? (fun op => match op with
    | CanvasOp.lineTo x y => some (x, y)
    | CanvasOp.bezierCurveTo _ _ _ _ x y => some (x, y)
    | _ => none)

/-- The centre of a dot: the centre of its first `arc`. -/
def dotCentre (ops : List CanvasOp) : Option (ℚ × ℚ) :=
  ops.findSome? (fun op => match op with
    | CanvasOp.arc x y _ _ _ _ => some (x, y)
    | _ => none)

/-- Whether a point lies in the backing-store rectangle of a canvas element:
`0 <= x <= canvas.width` and `0 <= y <= canvas.height`. -/
def CanvasElement.contains (c : CanvasElement) (p : ℚ × ℚ) : Prop :=
  0 ≤ p.1 ∧ p.1 ≤ c.width ∧ 0 ≤ p.2 ∧ p.2 ≤ c.height

instance (c : CanvasElement) (p : ℚ × ℚ) : Decidable (c.contains p) := by
  unfold CanvasElement.contains
  infer_instance

/-! ## Sample inputs -/

/-- The defaults `d` of `Graph`, on a display of scale factor 1. -/
def sampleOptions : Options :=
  { height := 800, width := 200, y_step := 20, x_step := 20,
    orientation := Orientation.vertical, dotRadius := 3, lineWidth := 2, scaleFactor := 1 }

/-! ## Auxiliary lemmas -/

theorem colors_length : colors.length = 20 := rfl

theorem get_color_natCast (k : ℕ) : get_color (k : ℤ) = colors[k % 20]? := by
  have h20 : ((colors.length : ℕ) : ℤ) = 20 := by simp [colors_length]
  have hk : (0 : ℤ) ≤ (k : ℤ) := Int.natCast_nonneg k
  have hm : (0 : ℤ) ≤ (k : ℤ) % 20 := Int.emod_nonneg _ (by norm_num)
  have ht : ((k : ℤ) % 20).toNat = k % 20 := by omega
  simp only [get_color, colorsAt, h20, Int.tmod_eq_emod hk (by norm_num : (0 : ℤ) ≤ 20),
    if_pos hm, ht]

theorem branchCountRoute_eq_max (b : Int) (r : RawRoute) :
    branchCountRoute b r = max b (max r.from_ r.to_) := by
  unfold branchCountRoute
  split_ifs with h <;> omega

theorem branchCountCommit_eq (b : Int) (c : RawCommit) :
    branchCountCommit b c = (c.routes.flatMap (fun r => [r.from_, r.to_])).foldl max b := by
  unfold branchCountCommit
  induction c.routes generalizing b with
  | nil => rfl
  | cons r rs ih =>
    simp only [List.foldl_cons, List.flatMap_cons, List.foldl_append, List.foldl_nil, ih,
      branchCountRoute_eq_max]
    congr 1
    exact (max_assoc _ _ _).symm

theorem foldl_branchCountCommit_eq (b : Int) (a : List RawCommit) :
    a.foldl branchCountCommit b = (routeLanes a).foldl max b := by
  induction a generalizing b with
  | nil => rfl
  | cons c cs ih =>
    simp only [List.foldl_cons, routeLanes, List.flatMap_cons, List.foldl_append,
      branchCountCommit_eq]
    exact ih _

theorem branchCount_eq_foldl_max (a : List RawCommit) :
    branchCount a = (routeLanes a).foldl max (-1) + 1 := by
  unfold branchCount
  rw [foldl_branchCountCommit_eq]

theorem le_foldl_max (l : List Int) (b : Int) : b ≤ l.foldl max b := by
  induction l generalizing b with
  | nil => exact le_refl _
  | cons x xs ih => exact le_trans (le_max_left b x) (ih (max b x))

theorem mem_le_foldl_max (l : List Int) (b x : Int) (hx : x ∈ l) : x ≤ l.foldl max b := by
  induction l generalizing b with
  | nil => cases hx
  | cons y ys ih =>
    rcases List.mem_cons.mp hx with h | h
    · subst h
      exact le_trans (le_max_right b x) (le_foldl_max ys (max b x))
    · exact ih (max b y) h

theorem foldl_max_eq_or_mem (l : List Int) (b : Int) : l.foldl max b = b ∨ l.foldl max b ∈ l := by
  induction l generalizing b with
  | nil => exact Or.inl rfl
  | cons y ys ih =>
    rcases ih (max b y) with h | h
    · rcases max_choice b y with hb | hy
      · left
        rw [List.foldl_cons, h]
        exact hb
      · right
        rw [List.foldl_cons, h, hy]
        exact List.mem_cons_self _ _
    · right
      exact List.mem_cons_of_mem _ h

/-! ## Theorems -/

/-- C8: `get_color` is total on the non-negative integers, returns the palette
entry at index `k mod 20`, has period 20, and `get_color(20)` is `palette[0]`. -/
theorem get_color_total_periodic (k : ℕ) :
    (∃ c, get_color (k : ℤ) = some c ∧ c ∈ colors) ∧
      get_color (k : ℤ) = colors[k % 20]? ∧
      get_color ((k : ℤ) + 20) = get_color (k : ℤ) ∧
      get_color 20 = colors[0]? ∧ get_color 20 = some "#e11d21" := by
  have hlt : k % 20 < colors.length := by rw [colors_length]; exact Nat.mod_lt _ (by norm_num)
  refine ⟨⟨colors[k % 20], ?_, List.getElem_mem _⟩, get_color_natCast k, ?_, ?_, ?_⟩
  · rw [get_color_natCast, List.getElem?_eq_getElem hlt]
  · have h : ((k : ℤ) + 20) = ((k + 20 : ℕ) : ℤ) := by push_cast; rfl
    rw [h, get_color_natCast, get_color_natCast, Nat.add_mod_right]
  · exact get_color_natCast 20
  · exact get_color_natCast 20

/-- C2: when all route lanes are non-negative, `branchCount` is 0 if the input has
no route at all and otherwise 1 plus the greatest `from`/`to` lane of all routes. -/
theorem branchCount_spec (data : List RawCommit)
    (h : ∀ c ∈ data, ∀ r ∈ c.routes, 0 ≤ r.from_ ∧ 0 ≤ r.to_) :
    (routeLanes data = [] → branchCount data = 0) ∧
      (routeLanes data ≠ [] →
        ∃ m ∈ routeLanes data, (∀ x ∈ routeLanes data, x ≤ m) ∧ branchCount data = 1 + m) := by
  have hnn : ∀ x ∈ routeLanes data, (0 : ℤ) ≤ x := by
    intro x hx
    simp only [routeLanes, List.mem_flatMap] at hx
    obtain ⟨c, hc, r, hr, hxr⟩ := hx
    have := h c hc r hr
    simp only [List.mem_cons, List.mem_singleton, List.not_mem_nil, or_false] at hxr
    rcases hxr with rfl | rfl
    · exact this.1
    · exact this.2
  constructor
  · intro he
    rw [branchCount_eq_foldl_max, he]
    rfl
  · intro hne
    obtain ⟨y, hy⟩ := List.exists_mem_of_ne_nil _ hne
    have hy0 : (0 : ℤ) ≤ (routeLanes data).foldl max (-1) :=
      le_trans (hnn y hy) (mem_le_foldl_max _ _ _ hy)
    refine ⟨(routeLanes data).foldl max (-1), ?_, fun x hx => mem_le_foldl_max _ _ _ hx, ?_⟩
    · rcases foldl_max_eq_or_mem (routeLanes data) (-1) with h1 | h1
      · rw [h1] at hy0; norm_num at hy0
      · exact h1
    · rw [branchCount_eq_foldl_max, add_comm]

/-- Witness of C2: two commits, routes `[0,0,0]` and `[0,3,1]`; `branchCount` is 4. -/
theorem branchCount_spec_witness :
    branchCount [⟨"a", (0, 0), [⟨0, 0, 0⟩, ⟨0, 3, 1⟩]⟩, ⟨"b", (3, 1), []⟩] = 1 + 3 ∧
      ∃ m ∈ routeLanes [⟨"a", (0, 0), [⟨0, 0, 0⟩, ⟨0, 3, 1⟩]⟩, ⟨"b", (3, 1), []⟩],
        (∀ x ∈ routeLanes [⟨"a", (0, 0), [⟨0, 0, 0⟩, ⟨0, 3, 1⟩]⟩, ⟨"b", (3, 1), []⟩], x ≤ m) ∧
        branchCount [⟨"a", (0, 0), [⟨0, 0, 0⟩, ⟨0, 3, 1⟩]⟩, ⟨"b", (3, 1), []⟩] = 1 + m :=
  ⟨by decide,
    (branchCount_spec [⟨"a", (0, 0), [⟨0, 0, 0⟩, ⟨0, 3, 1⟩]⟩, ⟨"b", (3, 1), []⟩]
      (by decide)).2 (by decide)⟩

/-- C3: `drawDot` draws one circle: centre `((l+1)*x_step*scale, (i+0.5)*y_step*scale)`
in vertical orientation and `(width*scale - (i+0.5)*x_step*scale, (l+1)*y_step*scale)`
in horizontal orientation, radius `dotRadius*scale`, arc from `0` to `2*PI`; the
calls made and the shape they paint. -/
theorem drawDot_circle (PI : ℚ) (i : ℕ) (c : RawCommit) (o : Options) :
    (newCommit i c { o with orientation := Orientation.vertical }).drawDot PI =
        [CanvasOp.setFillStyle (get_color c.dot.1), CanvasOp.beginPath,
         CanvasOp.arc ((c.dot.1 + 1) * o.x_step * o.scaleFactor)
            ((i + 1/2) * o.y_step * o.scaleFactor) (o.dotRadius * o.scaleFactor) 0 (2 * PI) true,
         CanvasOp.fill] ∧
      (newCommit i c { o with orientation := Orientation.horizontal }).drawDot PI =
        [CanvasOp.setFillStyle (get_color c.dot.1), CanvasOp.beginPath,
         CanvasOp.arc (o.width * o.scaleFactor - (i + 1/2) * o.x_step * o.scaleFactor)
            ((c.dot.1 + 1) * o.y_step * o.scaleFactor) (o.dotRadius * o.scaleFactor) 0 (2 * PI) true,
         CanvasOp.fill] ∧
      paint ((newCommit i c { o with orientation := Orientation.vertical }).drawDot PI) =
        [Painted.filled
          [PathSeg.arc ((c.dot.1 + 1) * o.x_step * o.scaleFactor)
            ((i + 1/2) * o.y_step * o.scaleFactor) (o.dotRadius * o.scaleFactor) 0 (2 * PI) true]
          ((get_color c.dot.1).getD "#000000")] ∧
      paint ((newCommit i c { o with orientation := Orientation.horizontal }).drawDot PI) =
        [Painted.filled
          [PathSeg.arc (o.width * o.scaleFactor - (i + 1/2) * o.x_step * o.scaleFactor)
            ((c.dot.1 + 1) * o.y_step * o.scaleFactor) (o.dotRadius * o.scaleFactor) 0 (2 * PI) true]
          ((get_color c.dot.1).getD "#000000")] := by
  refine ⟨?_, ?_, ?_, ?_⟩
  · simp [Commit.drawDot, newCommit]
  · simp [Commit.drawDot, newCommit]
  · cases hc : get_color c.dot.1 <;>
      simp [paint, Ctx.run, Ctx.step, Ctx.fresh, Commit.drawDot, newCommit, hc]
  · cases hc : get_color c.dot.1 <;>
      simp [paint, Ctx.run, Ctx.step, Ctx.fresh, Commit.drawDot, newCommit, hc]

/-- C1 (the code departs from the claim): `drawDot` takes the fill colour from the
first element of the dot descriptor, the lane. For the dot `[0, 1]` the fill
colour is `palette[0]`, while `get_color(branch)` is `palette[1]`. -/
theorem drawDot_fill_colour_from_lane :
    (∀ (PI : ℚ) (i : ℕ) (c : RawCommit) (o : Options),
        ((newCommit i c o).drawDot PI).head? = some (CanvasOp.setFillStyle (get_color c.dot.1))) ∧
      paint ((newCommit 0 ⟨"c0", (0, 1), []⟩ sampleOptions).drawDot 3) =
        [Painted.filled [PathSeg.arc 20 10 3 0 6 true] "#e11d21"] ∧
      get_color 0 = some "#e11d21" ∧ get_color 1 = some "#fbca04" := by
  refine ⟨?_, ?_, by decide, by decide⟩
  · intro PI i c o
    unfold Commit.drawDot
    cases ho : o.orientation <;> simp [newCommit, ho]
  · have hc : get_color 0 = some "#e11d21" := by decide
    simp [paint, Ctx.run, Ctx.step, Ctx.fresh, Commit.drawDot, newCommit, sampleOptions, hc]
    norm_num

/-- C4: a route with `from == to` is drawn, in either orientation, as one path:
`moveTo` the position of (commit index, `from`), then a single `lineTo` the
position of (commit index + 1, `to`), and no curve. -/
theorem drawRoute_straight (i : ℕ) (r : RawRoute) (o : Options) (h : r.from_ = r.to_) :
    (newRoute i r o).drawRoute =
        [CanvasOp.setStrokeStyle (get_color r.branch), CanvasOp.beginPath,
         CanvasOp.moveTo (specPosition o i r.from_).1 (specPosition o i r.from_).2,
         CanvasOp.lineTo (specPosition o (i + 1) r.to_).1 (specPosition o (i + 1) r.to_).2,
         CanvasOp.stroke] ∧
      paint (newRoute i r o).drawRoute =
        [Painted.stroked
          [PathSeg.moveTo (specPosition o i r.from_).1 (specPosition o i r.from_).2,
           PathSeg.lineTo (specPosition o (i + 1) r.to_).1 (specPosition o (i + 1) r.to_).2]
          ((get_color r.branch).getD "#000000") 1] := by
  have hops : (newRoute i r o).drawRoute =
      [CanvasOp.setStrokeStyle (get_color r.branch), CanvasOp.beginPath,
       CanvasOp.moveTo (specPosition o i r.from_).1 (specPosition o i r.from_).2,
       CanvasOp.lineTo (specPosition o (i + 1) r.to_).1 (specPosition o (i + 1) r.to_).2,
       CanvasOp.stroke] := by
    have e : ((i : ℚ) + 1 / 2 + 1) = ((i : ℚ) + 1 + 1 / 2) := by ring
    unfold Route.drawRoute specPosition
    cases ho : o.orientation
    · simp only [newRoute, ho, h, if_true, List.cons_append, List.nil_append,
        List.singleton_append, e]
    · simp only [newRoute, ho, h, if_true, List.cons_append, List.nil_append,
        List.singleton_append, e]
  refine ⟨hops, ?_⟩
  rw [hops]
  cases hc : get_color r.branch <;> simp [paint, Ctx.run, Ctx.step, Ctx.fresh]

/-- Witness of C4: the route `[0, 0, 0]` of commit 0 with the default options. -/
theorem drawRoute_straight_witness :
    (newRoute 0 ⟨0, 0, 0⟩ sampleOptions).drawRoute =
        [CanvasOp.setStrokeStyle (get_color 0), CanvasOp.beginPath,
         CanvasOp.moveTo (specPosition sampleOptions (0 : ℕ) (0 : ℤ)).1
           (specPosition sampleOptions (0 : ℕ) (0 : ℤ)).2,
         CanvasOp.lineTo (specPosition sampleOptions ((0 : ℕ) + 1) (0 : ℤ)).1
           (specPosition sampleOptions ((0 : ℕ) + 1) (0 : ℤ)).2,
         CanvasOp.stroke] :=
  (drawRoute_straight 0 ⟨0, 0, 0⟩ sampleOptions rfl).1

/-- Over exact arithmetic a route with `from != to` and a non-zero scaled lane step
is drawn as `moveTo` the origin, one cubic curve ending at the destination, `stroke`. -/
theorem drawRoute_curve (i : ℕ) (r : RawRoute) (o : Options) (h : r.from_ ≠ r.to_)
    (hs : laneStep o * o.scaleFactor ≠ 0) :
    ∃ c1x c1y c2x c2y, (newRoute i r o).drawRoute =
      [CanvasOp.setStrokeStyle (get_color r.branch), CanvasOp.beginPath,
       CanvasOp.moveTo (specPosition o i r.from_).1 (specPosition o i r.from_).2,
       CanvasOp.bezierCurveTo c1x c1y c2x c2y
         (specPosition o (i + 1) r.to_).1 (specPosition o (i + 1) r.to_).2,
       CanvasOp.stroke] := by
  have e : ((i : ℚ) + 1 / 2 + 1) = ((i : ℚ) + 1 + 1 / 2) := by ring
  have hq : (r.from_ : ℚ) + 1 ≠ (r.to_ : ℚ) + 1 := by
    intro hq
    exact h (by exact_mod_cast add_right_cancel hq)
  unfold Route.drawRoute specPosition
  cases ho : o.orientation
  · have hs1 : o.x_step * o.scaleFactor ≠ 0 := by simpa [laneStep, ho] using hs
    have hne : ((r.from_ : ℚ) + 1) * o.x_step * o.scaleFactor ≠
        ((r.to_ : ℚ) + 1) * o.x_step * o.scaleFactor := by
      intro hEq
      rw [mul_assoc, mul_assoc] at hEq
      exact hq (mul_right_cancel₀ hs1 hEq)
    simp only [newRoute, ho, if_neg hne, List.cons_append, List.nil_append,
      List.singleton_append, e]
    exact ⟨_, _, _, _, rfl⟩
  · have hs1 : o.y_step * o.scaleFactor ≠ 0 := by simpa [laneStep, ho] using hs
    have hne : ((r.from_ : ℚ) + 1) * o.y_step * o.scaleFactor ≠
        ((r.to_ : ℚ) + 1) * o.y_step * o.scaleFactor := by
      intro hEq
      rw [mul_assoc, mul_assoc] at hEq
      exact hq (mul_right_cancel₀ hs1 hEq)
    simp only [newRoute, ho, if_neg hne, List.cons_append, List.nil_append,
      List.singleton_append, e]
    rcases lt_or_gt_of_ne hne with hlt | hgt
    · rw [if_neg (not_lt.mpr (le_of_lt hlt)), if_pos hlt]
      exact ⟨_, _, _, _, rfl⟩
    · rw [if_pos hgt]
      exact ⟨_, _, _, _, rfl⟩

/-- Over exact arithmetic every curve of `drawRoute` has its control points at
two-thirds of the scaled primary step and one quarter of the scaled lane step
from the origin and from the destination. -/
theorem drawRoute_control_offsets (i : ℕ) (r : RawRoute) (o : Options)
    (c1x c1y c2x c2y x y : ℚ) (_h : r.from_ ≠ r.to_)
    (hm : CanvasOp.bezierCurveTo c1x c1y c2x c2y x y ∈ (newRoute i r o).drawRoute) :
    (x, y) = specPosition o (i + 1) r.to_ ∧
      |primaryCoord o (c1x, c1y) - primaryCoord o (specPosition o i r.from_)| =
        2 / 3 * |primaryStep o * o.scaleFactor| ∧
      |primaryCoord o (c2x, c2y) - primaryCoord o (specPosition o (i + 1) r.to_)| =
        2 / 3 * |primaryStep o * o.scaleFactor| ∧
      |crossCoord o (c1x, c1y) - crossCoord o (specPosition o i r.from_)| =
        1 / 4 * |laneStep o * o.scaleFactor| ∧
      |crossCoord o (c2x, c2y) - crossCoord o (specPosition o (i + 1) r.to_)| =
        1 / 4 * |laneStep o * o.scaleFactor| := by
  have e : ((i : ℚ) + 1 / 2 + 1) = ((i : ℚ) + 1 + 1 / 2) := by ring
  have h23 : ∀ t : ℚ, |t / 3 * 2| = 2 / 3 * |t| := by
    intro t
    rw [show t / 3 * 2 = 2 / 3 * t by ring, abs_mul, abs_of_pos (by norm_num : (0 : ℚ) < 2 / 3)]
  have h14 : ∀ t : ℚ, |t / 4| = 1 / 4 * |t| := by
    intro t
    rw [show t / 4 = 1 / 4 * t by ring, abs_mul, abs_of_pos (by norm_num : (0 : ℚ) < 1 / 4)]
  unfold Route.drawRoute at hm
  cases ho : o.orientation
  · simp only [newRoute, ho] at hm
    rw [List.mem_append, List.mem_append] at hm
    rcases hm with (hm | hm) | hm
    · simp at hm
    · split_ifs at hm with h1
      · simp at hm
      · simp only [List.mem_singleton, CanvasOp.bezierCurveTo.injEq] at hm
        obtain ⟨rfl, rfl, rfl, rfl, rfl, rfl⟩ := hm
        simp only [specPosition, primaryCoord, crossCoord, primaryStep, laneStep, ho, e]
        refine ⟨trivial, ?_, ?_, ?_, ?_⟩
        · rw [add_sub_cancel_left]; exact h23 _
        · rw [sub_sub_cancel_left, abs_neg]; exact h23 _
        · rw [sub_sub_cancel_left, abs_neg]; exact h14 _
        · rw [add_sub_cancel_left]; exact h14 _
    · simp at hm
  · simp only [newRoute, ho] at hm
    rw [List.mem_append, List.mem_append] at hm
    rcases hm with (hm | hm) | hm
    · simp at hm
    · split_ifs at hm with h1 h2 h3
      · simp at hm
      · simp only [List.mem_singleton, CanvasOp.bezierCurveTo.injEq] at hm
        obtain ⟨rfl, rfl, rfl, rfl, rfl, rfl⟩ := hm
        simp only [specPosition, primaryCoord, crossCoord, primaryStep, laneStep, ho, e]
        refine ⟨trivial, ?_, ?_, ?_, ?_⟩
        · rw [sub_sub_cancel_left, abs_neg]; exact h23 _
        · rw [add_sub_cancel_left]; exact h23 _
        · rw [add_sub_cancel_left]; exact h14 _
        · rw [sub_sub_cancel_left, abs_neg]; exact h14 _
      · simp only [List.mem_singleton, CanvasOp.bezierCurveTo.injEq] at hm
        obtain ⟨rfl, rfl, rfl, rfl, rfl, rfl⟩ := hm
        simp only [specPosition, primaryCoord, crossCoord, primaryStep, laneStep, ho, e]
        refine ⟨trivial, ?_, ?_, ?_, ?_⟩
        · rw [sub_sub_cancel_left, abs_neg]; exact h23 _
        · rw [add_sub_cancel_left]; exact h23 _
        · rw [sub_sub_cancel_left, abs_neg]; exact h14 _
        · rw [add_sub_cancel_left]; exact h14 _
      · simp at hm
    · simp at hm

/-- C7 (the code departs from the claim): in vertical orientation the cross-axis
offsets of the control points do not depend on the direction of the route. With
the default options, both the route `[0, 1, 0]` (from `x = 20` to `x = 40`) and
the route `[1, 0, 0]` (from `x = 40` to `x = 20`) have their first control point
5 to the left of the origin and their second 5 to the right of the destination;
the horizontal branch of the same function does flip the offsets. -/
theorem drawRoute_vertical_offsets_ignore_direction :
    (newRoute 0 ⟨0, 1, 0⟩ sampleOptions).drawRoute =
        [CanvasOp.setStrokeStyle (some "#e11d21"), CanvasOp.beginPath, CanvasOp.moveTo 20 10,
         CanvasOp.bezierCurveTo (20 - 5) (70 / 3) (40 + 5) (50 / 3) 40 30, CanvasOp.stroke] ∧
      (newRoute 0 ⟨1, 0, 0⟩ sampleOptions).drawRoute =
        [CanvasOp.setStrokeStyle (some "#e11d21"), CanvasOp.beginPath, CanvasOp.moveTo 40 10,
         CanvasOp.bezierCurveTo (40 - 5) (70 / 3) (20 + 5) (50 / 3) 20 30, CanvasOp.stroke] ∧
      (newRoute 0 ⟨0, 1, 0⟩ { sampleOptions with orientation := Orientation.horizontal }).drawRoute =
        [CanvasOp.setStrokeStyle (some "#e11d21"), CanvasOp.beginPath, CanvasOp.moveTo 190 20,
         CanvasOp.bezierCurveTo (530 / 3) (20 - 5) (550 / 3) (40 + 5) 170 40, CanvasOp.stroke] ∧
      (newRoute 0 ⟨1, 0, 0⟩ { sampleOptions with orientation := Orientation.horizontal }).drawRoute =
        [CanvasOp.setStrokeStyle (some "#e11d21"), CanvasOp.beginPath, CanvasOp.moveTo 190 40,
         CanvasOp.bezierCurveTo (530 / 3) (40 + 5) (550 / 3) (20 - 5) 170 20, CanvasOp.stroke] := by
  have hc : get_color 0 = some "#e11d21" := by decide
  refine ⟨?_, ?_, ?_, ?_⟩
  · simp [Route.drawRoute, newRoute, sampleOptions, hc]
    norm_num
  · simp [Route.drawRoute, newRoute, sampleOptions, hc]
    norm_num
  · simp [Route.drawRoute, newRoute, sampleOptions, hc]
    norm_num
  · simp [Route.drawRoute, newRoute, sampleOptions, hc]
    norm_num

/-- C9 (the code departs from the claim): `draw` assigns `options.lineWidth` to the
context, without the scale factor. With `lineWidth = 2` and `scaleFactor = 2` the
route of the input is stroked with line width 2, while `lineWidth * scaleFactor`
is 4 (the dot radius of the same drawing is scaled: 3 * 2 = 6). -/
theorem draw_lineWidth_not_scaled :
    GraphCanvas.draw 3 ⟨[⟨"c0", (0, 0), [⟨0, 0, 0⟩]⟩], { sampleOptions with scaleFactor := 2 }⟩ =
        [CanvasOp.setLineWidth 2,
         CanvasOp.setStrokeStyle (some "#e11d21"), CanvasOp.beginPath, CanvasOp.moveTo 40 20,
         CanvasOp.lineTo 40 60, CanvasOp.stroke,
         CanvasOp.setFillStyle (some "#e11d21"), CanvasOp.beginPath,
         CanvasOp.arc 40 20 6 0 6 true, CanvasOp.fill] ∧
      paint (GraphCanvas.draw 3
          ⟨[⟨"c0", (0, 0), [⟨0, 0, 0⟩]⟩], { sampleOptions with scaleFactor := 2 }⟩) =
        [Painted.stroked [PathSeg.moveTo 40 20, PathSeg.lineTo 40 60] "#e11d21" 2,
         Painted.filled [PathSeg.arc 40 20 6 0 6 true] "#e11d21"] ∧
      ({ sampleOptions with scaleFactor := 2 } : Options).lineWidth *
        ({ sampleOptions with scaleFactor := 2 } : Options).scaleFactor = 4 := by
  have hc : get_color 0 = some "#e11d21" := by decide
  have hops : GraphCanvas.draw 3
      ⟨[⟨"c0", (0, 0), [⟨0, 0, 0⟩]⟩], { sampleOptions with scaleFactor := 2 }⟩ =
      [CanvasOp.setLineWidth 2,
       CanvasOp.setStrokeStyle (some "#e11d21"), CanvasOp.beginPath, CanvasOp.moveTo 40 20,
       CanvasOp.lineTo 40 60, CanvasOp.stroke,
       CanvasOp.setFillStyle (some "#e11d21"), CanvasOp.beginPath,
       CanvasOp.arc 40 20 6 0 6 true, CanvasOp.fill] := by
    simp [GraphCanvas.draw, drawFrom, drawRoutes, Route.drawRoute, Commit.drawDot, newCommit,
      newRoute, sampleOptions, hc]
    norm_num
  refine ⟨hops, ?_, ?_⟩
  · rw [hops]
    simp [paint, Ctx.run, Ctx.step, Ctx.fresh]
  · simp [sampleOptions]
    norm_num

/-! ## The order of drawing -/

theorem run_append (s : Ctx) (xs ys : List CanvasOp) :
    s.run (xs ++ ys) = (((s.run xs).1.run ys).1, (s.run xs).2 ++ ((s.run xs).1.run ys).2) := by
  induction xs generalizing s with
  | nil => simp [Ctx.run]
  | cons x xs ih => simp [Ctx.run, ih, List.append_assoc]

theorem run_drawRoute_kinds (s : Ctx) (r : Route) :
    (s.run r.drawRoute).2.map Painted.isStroke = [true] := by
  unfold Route.drawRoute
  cases ho : r.options.orientation <;> cases hc : get_color r.branch <;>
    simp only [] <;> split_ifs <;>
    simp [Ctx.run, Ctx.step, Painted.isStroke]

theorem run_drawDot_kinds (s : Ctx) (PI : ℚ) (c : Commit) :
    (s.run (c.drawDot PI)).2.map Painted.isStroke = [false] := by
  unfold Commit.drawDot
  cases ho : c.options.orientation <;> cases hc : get_color c.dot_branch <;>
    simp [Ctx.run, Ctx.step, Painted.isStroke]

theorem run_drawRoutes_kinds (s : Ctx) (rs : List Route) :
    (s.run (drawRoutes rs)).2.map Painted.isStroke = List.replicate rs.length true := by
  induction rs generalizing s with
  | nil => rfl
  | cons r rs ih =>
    simp only [drawRoutes, run_append, List.map_append, run_drawRoute_kinds, ih,
      List.length_cons, List.replicate_succ, List.singleton_append]

theorem run_drawFrom_kinds (PI : ℚ) (o : Options) (s : Ctx) (d : ℕ) (data : List RawCommit) :
    (s.run (drawFrom PI o d data)).2.map Painted.isStroke =
      data.flatMap (fun c => List.replicate c.routes.length true ++ [false]) := by
  induction data generalizing s d with
  | nil => rfl
  | cons c cs ih =>
    simp only [drawFrom, run_append, List.map_append, run_drawRoutes_kinds, run_drawDot_kinds,
      ih, List.flatMap_cons, newCommit, List.length_map, List.append_assoc]

theorem drawRoutes_map (i : ℕ) (o : Options) (rs : List RawRoute) :
    drawRoutes (rs.map (fun a => newRoute i a o)) =
      rs.flatMap (fun r => (newRoute i r o).drawRoute) := by
  induction rs with
  | nil => rfl
  | cons r rs ih => simp only [List.map_cons, drawRoutes, ih, List.flatMap_cons]

theorem drawFrom_eq (PI : ℚ) (o : Options) (d : ℕ) (data : List RawCommit) :
    drawFrom PI o d data =
      (data.enumFrom d).flatMap (fun p =>
        p.2.routes.flatMap (fun r => (newRoute p.1 r o).drawRoute)
          ++ (newCommit p.1 p.2 o).drawDot PI) := by
  induction data generalizing d with
  | nil => rfl
  | cons c cs ih =>
    simp only [drawFrom, List.enumFrom_cons, List.flatMap_cons, ih, List.append_assoc]
    congr 1
    exact drawRoutes_map d o c.routes

theorem length_kinds (data : List RawCommit) :
    (data.flatMap (fun c => List.replicate c.routes.length true ++ [false])).length =
      data.length + (data.map (fun c => c.routes.length)).sum := by
  induction data with
  | nil => rfl
  | cons c cs ih =>
    simp only [List.flatMap_cons, List.length_append, List.length_replicate, List.length_cons,
      List.length_nil, ih, List.map_cons, List.sum_cons]
    omega

/-- C10: `draw` makes its calls in this order: for each commit index `0..N-1` in
increasing order, the calls of `drawRoute` for each route of that commit in the
listed order, then the calls of `drawDot` for that commit. The shapes painted
are accordingly, per commit, one stroked path per route followed by one filled
dot, and their number is `N` plus the total number of routes. -/
theorem draw_order (PI : ℚ) (a : GraphCanvas) :
    GraphCanvas.draw PI a =
        CanvasOp.setLineWidth a.options.lineWidth ::
          a.data.enum.flatMap (fun p =>
            p.2.routes.flatMap (fun r => (newRoute p.1 r a.options).drawRoute)
              ++ (newCommit p.1 p.2 a.options).drawDot PI) ∧
      (paint (GraphCanvas.draw PI a)).map Painted.isStroke =
        a.data.flatMap (fun c => List.replicate c.routes.length true ++ [false]) ∧
      (paint (GraphCanvas.draw PI a)).length =
        a.data.length + (a.data.map (fun c => c.routes.length)).sum := by
  have hk : (paint (GraphCanvas.draw PI a)).map Painted.isStroke =
      a.data.flatMap (fun c => List.replicate c.routes.length true ++ [false]) := by
    simp only [paint, GraphCanvas.draw, Ctx.run, Ctx.step, List.nil_append]
    exact run_drawFrom_kinds PI a.options _ 0 a.data
  refine ⟨?_, hk, ?_⟩
  · simp only [GraphCanvas.draw, drawFrom_eq, List.enum]
  · rw [← length_kinds, ← hk, List.length_map]

/-! ## Sizing the surface -/

theorem one_le_backingScale (devicePixelRatio : Option ℚ) : 1 ≤ backingScale devicePixelRatio := by
  unfold backingScale
  cases devicePixelRatio with
  | none => exact le_refl _
  | some r =>
    simp only []
    split_ifs with h
    · exact le_of_lt h
    · exact le_refl _

theorem newGraphCanvas_options (devicePixelRatio : Option ℚ) (a : List RawCommit)
    (b : LayoutOptions) :
    (newGraphCanvas devicePixelRatio a b).1.options =
      { height := b.height, width := b.width, y_step := b.y_step, x_step := b.x_step,
        orientation := b.orientation, dotRadius := b.dotRadius, lineWidth := b.lineWidth,
        scaleFactor := backingScale devicePixelRatio } := rfl

theorem newGraphCanvas_data (devicePixelRatio : Option ℚ) (a : List RawCommit)
    (b : LayoutOptions) : (newGraphCanvas devicePixelRatio a b).1.data = a := rfl

theorem newGraphCanvas_style (devicePixelRatio : Option ℚ) (a : List RawCommit)
    (b : LayoutOptions) :
    (newGraphCanvas devicePixelRatio a b).2.style_width = b.width ∧
      (newGraphCanvas devicePixelRatio a b).2.style_height = b.height := by
  unfold newGraphCanvas
  cases b.orientation <;> simp only [] <;> split_ifs <;> exact ⟨rfl, rfl⟩

theorem integerPart_eq (v : ℚ) (n : ℕ) (h1 : (n : ℚ) ≤ v) (h2 : v < (n : ℚ) + 1) :
    integerPart v = (n : ℤ) := by
  have h0 : (0 : ℚ) ≤ v := le_trans (Nat.cast_nonneg n) h1
  unfold integerPart
  rw [if_pos h0, Int.floor_eq_iff]
  exact ⟨by exact_mod_cast h1, by exact_mod_cast h2⟩

theorem canvasAttribute_eq (dflt : ℕ) (v : ℚ) (n : ℕ) (h1 : (n : ℚ) ≤ v)
    (h2 : v < (n : ℚ) + 1) (hn : n ≤ 2147483647) : canvasAttribute dflt v = (n : ℚ) := by
  unfold canvasAttribute
  rw [integerPart_eq v n h1 h2]
  have hm : ((n : ℤ)) % 4294967296 = (n : ℤ) := by omega
  rw [hm, if_neg (by omega)]
  norm_cast

theorem canvasAttribute_natCast (dflt n : ℕ) (hn : n ≤ 2147483647) :
    canvasAttribute dflt (n : ℚ) = (n : ℚ) :=
  canvasAttribute_eq dflt (n : ℚ) n (le_refl _) (lt_add_one _) hn

/-- C11 (as stated, refuted): an options object that supplies `width: 500` keeps
it. For one commit with the route `[0, 0, 0]` the width computed by the size
algorithm is `(1 + 0.5) * 20 = 30`, but the effective width is 500. -/
theorem graph_supplied_width_survives :
    (Graph.options [⟨"c0", (0, 0), [⟨0, 0, 0⟩]⟩] { noOptions with width := some 500 }).width = 500 ∧
      ((branchCount [⟨"c0", (0, 0), [⟨0, 0, 0⟩]⟩] : ℚ) + 1 / 2) *
        (Graph.options [⟨"c0", (0, 0), [⟨0, 0, 0⟩]⟩] { noOptions with width := some 500 }).x_step
          = 30 ∧
      (Graph.render none 3 [⟨"c0", (0, 0), [⟨0, 0, 0⟩]⟩] { noOptions with width := some 500 }).1 =
        { style_height := 60, style_width := 500, height := 60, width := 500 } := by
  have hb : branchCount [⟨"c0", (0, 0), [⟨0, 0, 0⟩]⟩] = 1 := by decide
  refine ⟨?_, ?_, ?_⟩
  · simp [Graph.options, extend, noOptions, Graph.defaults]
  · rw [hb]
    simp [Graph.options, extend, noOptions, Graph.defaults]
    norm_num
  · have h60 : canvasAttribute 150 60 = 60 := by
      simpa using canvasAttribute_natCast 150 60 (by norm_num)
    have h500 : canvasAttribute 300 500 = 500 := by
      simpa using canvasAttribute_natCast 300 500 (by norm_num)
    simp [Graph.render, newGraphCanvas, Graph.options, extend, noOptions, Graph.defaults,
      backingScale]
    norm_num [h60, h500]

/-- C11 (amended): each of `width` and `height` that the options object does not
supply is computed by the size algorithm from the commit count, `branchCount`,
the merged step sizes and the orientation (the defaults 200 and 800 never
survive); a `width` or `height` that the options object supplies is kept. The
presented size of the canvas is this effective width and height. -/
theorem graph_extents (devicePixelRatio : Option ℚ) (PI : ℚ) (data : List RawCommit)
    (b : UserOptions) :
    (Graph.options data b).x_step = b.x_step.getD 20 ∧
      (Graph.options data b).y_step = b.y_step.getD 20 ∧
      (Graph.options data b).width =
        b.width.getD
          (if b.orientation = some Orientation.horizontal
            then ((data.length : ℚ) + 2) * (Graph.options data b).x_step
            else ((branchCount data : ℚ) + 1 / 2) * (Graph.options data b).x_step) ∧
      (Graph.options data b).height =
        b.height.getD
          (if b.orientation = some Orientation.horizontal
            then ((branchCount data : ℚ) + 1 / 2) * (Graph.options data b).y_step
            else ((data.length : ℚ) + 2) * (Graph.options data b).y_step) ∧
      ((Graph.options data b).orientation = Orientation.horizontal ↔
        b.orientation = some Orientation.horizontal) ∧
      (Graph.render devicePixelRatio PI data b).1.style_width = (Graph.options data b).width ∧
      (Graph.render devicePixelRatio PI data b).1.style_height = (Graph.options data b).height := by
  have hsw : (Graph.render devicePixelRatio PI data b).1.style_width
      = (Graph.options data b).width :=
    (newGraphCanvas_style devicePixelRatio data (Graph.options data b)).1
  have hsh : (Graph.render devicePixelRatio PI data b).1.style_height
      = (Graph.options data b).height :=
    (newGraphCanvas_style devicePixelRatio data (Graph.options data b)).2
  refine ⟨?_, ?_, ?_, ?_, ?_, hsw, hsh⟩
  · unfold Graph.options
    split_ifs <;> simp [extend, Graph.defaults]
  · unfold Graph.options
    split_ifs <;> simp [extend, Graph.defaults]
  · unfold Graph.options
    split_ifs <;> simp [extend, Graph.defaults]
  · unfold Graph.options
    split_ifs <;> simp [extend, Graph.defaults]
  · unfold Graph.options
    rcases b with ⟨bh, bw, bys, bxs, bo, br, bl⟩
    cases bo with
    | none => simp [extend, Graph.defaults]
    | some o => cases o <;> simp [extend, Graph.defaults]



/-- C13 (as stated, refuted): for the single commit `["c0", [0, 0], []]` with no
options, on a display of scale factor 1, the one dot drawn has centre `(20, 10)`,
that is `(x_step, 0.5 * y_step)`, not `(x_step, 1.5 * y_step) = (20, 30)`. -/
theorem single_commit_dot_centre :
    paint (Graph.render none 3 [⟨"c0", (0, 0), []⟩] noOptions).2 =
        [Painted.filled [PathSeg.arc 20 10 3 0 6 true] "#e11d21"] ∧
      dotCentre (Graph.render none 3 [⟨"c0", (0, 0), []⟩] noOptions).2 = some (20, 10) ∧
      ((20 : ℚ), (10 : ℚ)) ≠ (20 * 1, 3 / 2 * 20 * 1) := by
  have hc : get_color 0 = some "#e11d21" := by decide
  have hops : (Graph.render none 3 [⟨"c0", (0, 0), []⟩] noOptions).2 =
      [CanvasOp.setLineWidth 2, CanvasOp.setFillStyle (some "#e11d21"), CanvasOp.beginPath,
       CanvasOp.arc 20 10 3 0 6 true, CanvasOp.fill] := by
    simp [Graph.render, newGraphCanvas, Graph.options, extend, noOptions, Graph.defaults,
      backingScale, GraphCanvas.draw, drawFrom, drawRoutes, Commit.drawDot, newCommit, hc]
    norm_num
  refine ⟨?_, ?_, ?_⟩
  · rw [hops]
    simp [paint, Ctx.run, Ctx.step, Ctx.fresh]
  · rw [hops]
    simp [dotCentre, List.findSome?]
  · intro h
    have h2 := congrArg Prod.snd h
    norm_num at h2

/-- C13 (amended): for the single commit `["c0", [0, 0], []]` with no options
(vertical orientation, `x_step = y_step = 20`, `dotRadius = 3`), whatever the device
pixel ratio, `draw` paints exactly one shape: a dot of centre
`(x_step * scale, 0.5 * y_step * scale)`, radius `3 * scale`, filled with `palette[0]`. -/
theorem single_commit_one_dot (devicePixelRatio : Option ℚ) (PI : ℚ) :
    paint (Graph.render devicePixelRatio PI [⟨"c0", (0, 0), []⟩] noOptions).2 =
        [Painted.filled
          [PathSeg.arc (20 * backingScale devicePixelRatio)
            (1 / 2 * 20 * backingScale devicePixelRatio)
            (3 * backingScale devicePixelRatio) 0 (2 * PI) true]
          "#e11d21"] ∧
      colors[0]? = some "#e11d21" := by
  have hc : get_color 0 = some "#e11d21" := by decide
  refine ⟨?_, rfl⟩
  have hops : (Graph.render devicePixelRatio PI [⟨"c0", (0, 0), []⟩] noOptions).2 =
      [CanvasOp.setLineWidth 2, CanvasOp.setFillStyle (some "#e11d21"), CanvasOp.beginPath,
       CanvasOp.arc (20 * backingScale devicePixelRatio)
         (1 / 2 * 20 * backingScale devicePixelRatio)
         (3 * backingScale devicePixelRatio) 0 (2 * PI) true, CanvasOp.fill] := by
    simp [Graph.render, newGraphCanvas_options, newGraphCanvas_data, Graph.options, extend,
      noOptions, Graph.defaults, GraphCanvas.draw, drawFrom, drawRoutes, Commit.drawDot,
      newCommit, hc]
  rw [hops]
  simp [paint, Ctx.run, Ctx.step, Ctx.fresh]

/-! ## Inputs outside the contract -/

/-- C14 (as stated, refuted): the single commit `["c0", [-1, 0], []]` has a negative
dot lane, yet `Graph` followed by `draw` raises nothing and draws its dot (centre
`(0, 10)`, in the initial fill colour since `get_color(-1)` is undefined). -/
theorem negative_lane_is_drawn :
    (Graph.render none 3 [⟨"c0", (-1, 0), []⟩] noOptions).2 =
        [CanvasOp.setLineWidth 2, CanvasOp.setFillStyle none, CanvasOp.beginPath,
         CanvasOp.arc 0 10 3 0 6 true, CanvasOp.fill] ∧
      paint (Graph.render none 3 [⟨"c0", (-1, 0), []⟩] noOptions).2 =
        [Painted.filled [PathSeg.arc 0 10 3 0 6 true] "#000000"] ∧
      (Graph.render none 3 [⟨"c0", (-1, 0), []⟩] noOptions).2 ≠ [] := by
  have hc : get_color (-1) = none := by decide
  have hops : (Graph.render none 3 [⟨"c0", (-1, 0), []⟩] noOptions).2 =
      [CanvasOp.setLineWidth 2, CanvasOp.setFillStyle none, CanvasOp.beginPath,
       CanvasOp.arc 0 10 3 0 6 true, CanvasOp.fill] := by
    simp [Graph.render, newGraphCanvas, Graph.options, extend, noOptions, Graph.defaults,
      backingScale, GraphCanvas.draw, drawFrom, drawRoutes, Commit.drawDot, newCommit, hc]
    norm_num
  refine ⟨hops, ?_, ?_⟩
  · rw [hops]
    simp [paint, Ctx.run, Ctx.step, Ctx.fresh]
  · rw [hops]
    simp

/-- C14 (amended): nothing validates the input. For an input that contains a negative
dot lane or a negative route lane, `Graph` followed by `draw` still makes its calls
on the context and paints every commit: one shape per route and one per dot. -/
theorem negative_lanes_not_rejected (devicePixelRatio : Option ℚ) (PI : ℚ)
    (data : List RawCommit) (b : UserOptions)
    (_h : ∃ c ∈ data, c.dot.1 < 0 ∨ ∃ r ∈ c.routes, r.from_ < 0 ∨ r.to_ < 0) :
    (Graph.render devicePixelRatio PI data b).2 ≠ [] ∧
      (paint (Graph.render devicePixelRatio PI data b).2).map Painted.isStroke =
        data.flatMap (fun c => List.replicate c.routes.length true ++ [false]) ∧
      (paint (Graph.render devicePixelRatio PI data b).2).length =
        data.length + (data.map (fun c => c.routes.length)).sum := by
  have hk : (paint (Graph.render devicePixelRatio PI data b).2).map Painted.isStroke =
      data.flatMap (fun c => List.replicate c.routes.length true ++ [false]) := by
    simp only [Graph.render, paint, GraphCanvas.draw, Ctx.run, Ctx.step, List.nil_append,
      newGraphCanvas_data]
    exact run_drawFrom_kinds PI _ _ 0 data
  refine ⟨?_, hk, ?_⟩
  · simp [Graph.render, GraphCanvas.draw]
  · rw [← length_kinds, ← hk, List.length_map]

/-- Witness of C14 (amended): the commit `["c0", [-1, 0], [[0, -1, 0]]]`. -/
theorem negative_lanes_not_rejected_witness :
    (paint (Graph.render none 3 [⟨"c0", (-1, 0), [⟨0, -1, 0⟩]⟩] noOptions).2).length = 1 + 1 :=
  (negative_lanes_not_rejected none 3 [⟨"c0", (-1, 0), [⟨0, -1, 0⟩]⟩] noOptions
    ⟨⟨"c0", (-1, 0), [⟨0, -1, 0⟩]⟩, List.mem_singleton.mpr rfl, Or.inl (by decide)⟩).2.2

/-! ## Colours -/

theorem colors_nodup : colors.Nodup := by decide

/-- C15: the palette has 20 entries (at least 16), pairwise distinct: for indices
`j`, `k` below 20, `get_color(j) == get_color(k)` only when `j == k`; two non-negative
branch indices `m`, `n` get the same colour exactly when they are congruent modulo 20. -/
theorem palette_distinct (j k : Fin 20) (m n : ℕ) :
    16 ≤ colors.length ∧ colors.length = 20 ∧ colors.Nodup ∧
      (get_color ((j : ℕ) : ℤ) = get_color ((k : ℕ) : ℤ) ↔ j = k) ∧
      (get_color (m : ℤ) = get_color (n : ℤ) ↔ m % 20 = n % 20) := by
  have hiff : ∀ m n : ℕ, get_color (m : ℤ) = get_color (n : ℤ) ↔ m % 20 = n % 20 := by
    intro m n
    have hm : m % 20 < colors.length := by rw [colors_length]; exact Nat.mod_lt _ (by norm_num)
    have hn : n % 20 < colors.length := by rw [colors_length]; exact Nat.mod_lt _ (by norm_num)
    rw [get_color_natCast, get_color_natCast, List.getElem?_eq_getElem hm,
      List.getElem?_eq_getElem hn, Option.some_inj]
    exact colors_nodup.getElem_inj_iff
  refine ⟨by simp [colors_length], colors_length, colors_nodup, ?_, hiff m n⟩
  rw [hiff, Nat.mod_eq_of_lt j.isLt, Nat.mod_eq_of_lt k.isLt]
  exact Fin.val_inj

/-! ## The shape of one route and of one dot -/

theorem drawDot_eq (PI : ℚ) (i : ℕ) (c : RawCommit) (o : Options) :
    (newCommit i c o).drawDot PI =
      [CanvasOp.setFillStyle (get_color c.dot.1), CanvasOp.beginPath,
       CanvasOp.arc (specPosition o i c.dot.1).1 (specPosition o i c.dot.1).2
         (o.dotRadius * o.scaleFactor) 0 (2 * PI) true,
       CanvasOp.fill] := by
  unfold Commit.drawDot specPosition
  cases ho : o.orientation <;> simp only [newCommit, ho]

theorem drawRoute_eq (i : ℕ) (r : RawRoute) (o : Options) :
    ∃ seg, (seg = CanvasOp.lineTo (specPosition o (i + 1) r.to_).1 (specPosition o (i + 1) r.to_).2 ∨
        ∃ a b c d, seg = CanvasOp.bezierCurveTo a b c d
          (specPosition o (i + 1) r.to_).1 (specPosition o (i + 1) r.to_).2) ∧
      (newRoute i r o).drawRoute =
        [CanvasOp.setStrokeStyle (get_color r.branch), CanvasOp.beginPath,
         CanvasOp.moveTo (specPosition o i r.from_).1 (specPosition o i r.from_).2,
         seg, CanvasOp.stroke] := by
  have e : ((i : ℚ) + 1 / 2 + 1) = ((i : ℚ) + 1 + 1 / 2) := by ring
  unfold Route.drawRoute specPosition
  cases ho : o.orientation
  · simp only [newRoute, ho, List.cons_append, List.nil_append, List.singleton_append, e]
    split_ifs with h1
    · exact ⟨_, Or.inl rfl, rfl⟩
    · exact ⟨_, Or.inr ⟨_, _, _, _, rfl⟩, rfl⟩
  · simp only [newRoute, ho, List.cons_append, List.nil_append, List.singleton_append, e]
    split_ifs with h1 h2 h3
    · exact ⟨_, Or.inl rfl, rfl⟩
    · exact ⟨_, Or.inr ⟨_, _, _, _, rfl⟩, rfl⟩
    · exact ⟨_, Or.inr ⟨_, _, _, _, rfl⟩, rfl⟩
    · exact absurd (lt_of_le_of_ne (not_lt.mp h2) h1) h3

/-- C16: `drawRoute` assigns `strokeStyle = get_color(branch)` for the route's own
branch index before it draws the path, in either orientation and for straight and
curved routes alike, and strokes one path with it (an undefined colour leaves the
stroke style as it was); the routes of a commit do not depend on its dot descriptor. -/
theorem drawRoute_stroke_colour (i : ℕ) (r : RawRoute) (o : Options) (s : Ctx)
    (sha : String) (dot : ℤ × ℤ) (rs : List RawRoute) :
    (newRoute i r o).drawRoute.head? = some (CanvasOp.setStrokeStyle (get_color r.branch)) ∧
      (∃ path, (s.run (newRoute i r o).drawRoute).2 =
        [Painted.stroked path ((get_color r.branch).getD s.strokeStyle) s.lineWidth]) ∧
      ((newCommit i ⟨sha, dot, rs⟩ o).routes.map Route.drawRoute =
        rs.map (fun r => (newRoute i r o).drawRoute)) ∧
      ((newCommit i ⟨sha, dot, rs⟩ o).routes.map (fun x => x.branch) =
        rs.map (fun r => r.branch)) := by
  obtain ⟨seg, hseg, hops⟩ := drawRoute_eq i r o
  refine ⟨?_, ?_, ?_, ?_⟩
  · rw [hops]
    rfl
  · rw [hops]
    rcases hseg with rfl | ⟨a, b, c, d, rfl⟩ <;> cases hc : get_color r.branch <;>
      simp [Ctx.run, Ctx.step]
  · simp [newCommit, List.map_map, Function.comp_def]
  · simp [newCommit, List.map_map, Function.comp_def, newRoute]

/-- C17: in both orientations the destination of a route owned by commit `i` with
`to = l` is the centre of the dot of commit `i + 1` with dot lane `l`, and the
origin of a route owned by commit `i` with `from = l` is the centre of the dot of
commit `i` with dot lane `l`. -/
theorem route_meets_dots (PI : ℚ) (i : ℕ) (r : RawRoute) (o : Options)
    (sha : String) (branch : ℤ) (rs : List RawRoute) :
    pathDestination (newRoute i r o).drawRoute =
        dotCentre ((newCommit (i + 1) ⟨sha, (r.to_, branch), rs⟩ o).drawDot PI) ∧
      pathOrigin (newRoute i r o).drawRoute =
        dotCentre ((newCommit i ⟨sha, (r.from_, branch), rs⟩ o).drawDot PI) ∧
      pathDestination (newRoute i r o).drawRoute = some (specPosition o (i + 1) r.to_) ∧
      pathOrigin (newRoute i r o).drawRoute = some (specPosition o i r.from_) := by
  obtain ⟨seg, hseg, hops⟩ := drawRoute_eq i r o
  have hd : pathDestination (newRoute i r o).drawRoute = some (specPosition o (i + 1) r.to_) := by
    rw [hops]
    rcases hseg with rfl | ⟨a, b, c, d, rfl⟩ <;> simp [pathDestination, List.findSome?]
  have ho : pathOrigin (newRoute i r o).drawRoute = some (specPosition o i r.from_) := by
    rw [hops]
    simp [pathOrigin, List.findSome?]
  refine ⟨?_, ?_, hd, ho⟩
  · rw [hd, drawDot_eq]
    simp [dotCentre, List.findSome?]
  · rw [ho, drawDot_eq]
    simp [dotCentre, List.findSome?]

/-! ## Points of the drawing and the backing store -/

theorem route_lane_lt_branchCount (data : List RawCommit) (c : RawCommit) (r : RawRoute)
    (hc : c ∈ data) (hr : r ∈ c.routes) :
    r.from_ < branchCount data ∧ r.to_ < branchCount data := by
  have hf : r.from_ ∈ routeLanes data := by
    simp only [routeLanes, List.mem_flatMap]
    exact ⟨c, hc, r, hr, by simp⟩
  have ht : r.to_ ∈ routeLanes data := by
    simp only [routeLanes, List.mem_flatMap]
    exact ⟨c, hc, r, hr, by simp⟩
  have h1 := mem_le_foldl_max (routeLanes data) (-1) _ hf
  have h2 := mem_le_foldl_max (routeLanes data) (-1) _ ht
  rw [branchCount_eq_foldl_max]
  constructor <;> omega

/-- C19 (the code departs from the claim): in horizontal orientation the constructor
`GraphCanvas` scales the backing store only when `1 > d`, which never holds for the
value of `backingScale`. With device pixel ratio 2, one commit `["c0", [0, 0], [[0, 0, 0]]]`
and no other option, the canvas is 60 by 30 while the dot centre and the route
origin are at `(100, 40)`, outside of it. -/
theorem horizontal_scaled_points_outside :
    (Graph.render (some 2) 3 [⟨"c0", (0, 0), [⟨0, 0, 0⟩]⟩]
        { noOptions with orientation := some Orientation.horizontal }).1 =
        { style_height := 30, style_width := 60, height := 30, width := 60 } ∧
      (Graph.render (some 2) 3 [⟨"c0", (0, 0), [⟨0, 0, 0⟩]⟩]
        { noOptions with orientation := some Orientation.horizontal }).2 =
        [CanvasOp.setLineWidth 2, CanvasOp.setStrokeStyle (some "#e11d21"), CanvasOp.beginPath,
         CanvasOp.moveTo 100 40, CanvasOp.lineTo 60 40, CanvasOp.stroke,
         CanvasOp.setFillStyle (some "#e11d21"), CanvasOp.beginPath,
         CanvasOp.arc 100 40 6 0 6 true, CanvasOp.fill] ∧
      ¬ (Graph.render (some 2) 3 [⟨"c0", (0, 0), [⟨0, 0, 0⟩]⟩]
        { noOptions with orientation := some Orientation.horizontal }).1.contains (100, 40) ∧
      (Graph.render (some 2) 3 [⟨"c0", (0, 0), [⟨0, 0, 0⟩]⟩] noOptions).1 =
        { style_height := 60, style_width := 30, height := 120, width := 60 } := by
  have hc0 : get_color 0 = some "#e11d21" := by decide
  have hb : branchCount [⟨"c0", (0, 0), [⟨0, 0, 0⟩]⟩] = 1 := by decide
  have h30 : canvasAttribute 150 30 = 30 := by
    simpa using canvasAttribute_natCast 150 30 (by norm_num)
  have h60 : canvasAttribute 300 60 = 60 := by
    simpa using canvasAttribute_natCast 300 60 (by norm_num)
  have h60h : canvasAttribute 150 60 = 60 := by
    simpa using canvasAttribute_natCast 150 60 (by norm_num)
  have h30w : canvasAttribute 300 30 = 30 := by
    simpa using canvasAttribute_natCast 300 30 (by norm_num)
  have h120 : canvasAttribute 150 120 = 120 := by
    simpa using canvasAttribute_natCast 150 120 (by norm_num)
  have hcv : (Graph.render (some 2) 3 [⟨"c0", (0, 0), [⟨0, 0, 0⟩]⟩]
      { noOptions with orientation := some Orientation.horizontal }).1 =
      { style_height := 30, style_width := 60, height := 30, width := 60 } := by
    simp [-Prod.mk_zero_zero, Graph.render, newGraphCanvas, Graph.options, extend, noOptions,
      Graph.defaults, backingScale, hb]
    norm_num [h30, h60]
  refine ⟨hcv, ?_, ?_, ?_⟩
  · simp [-Prod.mk_zero_zero, Graph.render, newGraphCanvas, Graph.options, extend, noOptions,
      Graph.defaults, backingScale, GraphCanvas.draw, drawFrom, drawRoutes, Route.drawRoute,
      Commit.drawDot, newCommit, newRoute, hc0, hb]
    norm_num
  · rw [hcv]
    simp [CanvasElement.contains]
    norm_num
  · simp [-Prod.mk_zero_zero, Graph.render, newGraphCanvas, Graph.options, extend, noOptions,
      Graph.defaults, backingScale, hb]
    norm_num [h60h, h30w, h120, h60]

/-! ## Rounding to the nearest double -/

theorem roundHalfEven_intCast (m : ℤ) : roundHalfEven (m : ℚ) = m := by
  unfold roundHalfEven
  rw [Int.floor_intCast, sub_self, if_pos (by norm_num)]

theorem binade_eq (q : ℚ) (e : ℤ) (he : -1022 ≤ e) (h1 : (2 : ℚ) ^ e ≤ |q|)
    (h2 : |q| < (2 : ℚ) ^ (e + 1)) : binade q = e := by
  have hpos : (0 : ℚ) < |q| := lt_of_lt_of_le (zpow_pos (by norm_num) e) h1
  have hle : e ≤ Int.log 2 |q| := (Int.zpow_le_iff_le_log (by norm_num) hpos).mp (by exact_mod_cast h1)
  have hlt : Int.log 2 |q| < e + 1 := (Int.lt_zpow_iff_log_lt (by norm_num) hpos).mp (by exact_mod_cast h2)
  unfold binade
  rw [max_eq_left (by omega)]
  omega

theorem round64_eq (q : ℚ) (e m : ℤ) (he : -1022 ≤ e) (h1 : (2 : ℚ) ^ e ≤ |q|)
    (h2 : |q| < (2 : ℚ) ^ (e + 1)) (hm : roundHalfEven (q / 2 ^ (e - 52)) = m) :
    round64 q = (m : ℚ) * 2 ^ (e - 52) := by
  unfold round64
  rw [binade_eq q e he h1 h2, hm]

theorem round64_zero : round64 0 = 0 := by
  unfold round64 roundHalfEven
  simp

theorem round64_exact : ExactOnQuarterIntegers round64 := by
  intro x hq hb
  obtain ⟨n, rfl⟩ := hq
  by_cases hn : n = 0
  · subst hn
    simpa using round64_zero
  · -- the binade of x
    have hpos : (0 : ℚ) < |(n : ℚ) / 4| := by
      rw [abs_pos]
      exact div_ne_zero (by exact_mod_cast hn) (by norm_num)
    have hge : (2 : ℚ) ^ (-2 : ℤ) ≤ |(n : ℚ) / 4| := by
      rw [abs_div, abs_of_pos (by norm_num : (0 : ℚ) < 4)]
      have h1 : (1 : ℚ) ≤ |(n : ℚ)| := by
        have : (1 : ℤ) ≤ |n| := Int.one_le_abs hn
        exact_mod_cast this
      have : (2 : ℚ) ^ (-2 : ℤ) = 1 / 4 := by norm_num
      rw [this]
      exact div_le_div_of_nonneg_right h1 (by norm_num)
    have hlo : (-2 : ℤ) ≤ Int.log 2 |(n : ℚ) / 4| :=
      (Int.zpow_le_iff_le_log (by norm_num) hpos).mp (by exact_mod_cast hge)
    have hhi : Int.log 2 |(n : ℚ) / 4| < 51 :=
      (Int.lt_zpow_iff_log_lt (by norm_num) hpos).mp (by exact_mod_cast hb)
    have hbin : binade ((n : ℚ) / 4) = Int.log 2 |(n : ℚ) / 4| := by
      unfold binade
      exact max_eq_left (by omega)
    obtain ⟨j, hj⟩ : ∃ j : ℕ, Int.log 2 |(n : ℚ) / 4| - 52 = -((j : ℤ) + 2) :=
      ⟨(50 - Int.log 2 |(n : ℚ) / 4|).toNat, by omega⟩
    unfold round64
    rw [hbin, hj]
    have hu : (2 : ℚ) ^ (-((j : ℤ) + 2)) = ((2 : ℚ) ^ j * 4)⁻¹ := by
      rw [zpow_neg, zpow_add₀ (by norm_num), zpow_natCast]
      norm_num
    rw [hu]
    have hm : (n : ℚ) / 4 / ((2 : ℚ) ^ j * 4)⁻¹ = ((n * 2 ^ j : ℤ) : ℚ) := by
      push_cast
      field_simp
      ring
    rw [hm, roundHalfEven_intCast]
    push_cast
    field_simp
    ring

theorem roundHalfEven_bounds (q : ℚ) : ⌊q⌋ ≤ roundHalfEven q ∧ roundHalfEven q ≤ ⌊q⌋ + 1 := by
  unfold roundHalfEven
  split_ifs <;> constructor <;> omega

theorem roundHalfEven_mono {a b : ℚ} (h : a ≤ b) : roundHalfEven a ≤ roundHalfEven b := by
  rcases lt_or_eq_of_le (Int.floor_mono h) with hlt | heq
  · have h1 := (roundHalfEven_bounds a).2
    have h2 := (roundHalfEven_bounds b).1
    omega
  · unfold roundHalfEven
    rw [heq]
    have hfr : a - ⌊b⌋ ≤ b - ⌊b⌋ := by linarith
    split_ifs <;> first | omega | (exfalso; linarith)

theorem roundHalfEven_neg (q : ℚ) : roundHalfEven (-q) = -roundHalfEven q := by
  by_cases hq : (⌊q⌋ : ℚ) = q
  · rw [← hq, ← Int.cast_neg, roundHalfEven_intCast, roundHalfEven_intCast]
  · have hlt : (⌊q⌋ : ℚ) < q := lt_of_le_of_ne (Int.floor_le q) hq
    have hlt2 : q < (⌊q⌋ : ℚ) + 1 := Int.lt_floor_add_one q
    have hfl : ⌊-q⌋ = -⌊q⌋ - 1 := by
      rw [Int.floor_eq_iff]
      push_cast
      constructor <;> linarith
    unfold roundHalfEven
    rw [hfl]
    push_cast
    split_ifs <;> first | omega | (exfalso; linarith)

theorem binade_neg (q : ℚ) : binade (-q) = binade q := by
  unfold binade
  rw [abs_neg]

theorem round64_neg (q : ℚ) : round64 (-q) = -round64 q := by
  unfold round64
  rw [binade_neg, neg_div, roundHalfEven_neg]
  push_cast
  ring

theorem round64_nonneg {q : ℚ} (h : 0 ≤ q) : 0 ≤ round64 q := by
  unfold round64
  have hu : (0 : ℚ) < 2 ^ (binade q - 52) := zpow_pos (by norm_num) _
  have h0 : roundHalfEven 0 ≤ roundHalfEven (q / 2 ^ (binade q - 52)) :=
    roundHalfEven_mono (div_nonneg h hu.le)
  have h00 : roundHalfEven 0 = 0 := by simpa using roundHalfEven_intCast 0
  rw [h00] at h0
  exact mul_nonneg (by exact_mod_cast h0) hu.le

theorem binade_mono_pos {x y : ℚ} (hx : 0 < x) (hxy : x ≤ y) : binade x ≤ binade y := by
  unfold binade
  have h : Int.log 2 |x| ≤ Int.log 2 |y| := by
    apply Int.log_mono_right (abs_pos.mpr (ne_of_gt hx))
    rw [abs_of_pos hx, abs_of_pos (lt_of_lt_of_le hx hxy)]
    exact hxy
  exact max_le_max h (le_refl _)

theorem round64_le_top {x : ℚ} (hx : 0 < x) : round64 x ≤ (2 : ℚ) ^ (binade x + 1) := by
  have hu : (0 : ℚ) < 2 ^ (binade x - 52) := zpow_pos (by norm_num) _
  have hlog : Int.log 2 |x| ≤ binade x := le_max_left _ _
  have h1 : x < (2 : ℚ) ^ (binade x + 1) := by
    have := Int.lt_zpow_succ_log_self (b := 2) (by norm_num) |x|
    rw [abs_of_pos hx] at this hlog
    refine lt_of_lt_of_le (by exact_mod_cast this) ?_
    exact zpow_le_zpow_right₀ (by norm_num) (by omega)
  have h2 : x / 2 ^ (binade x - 52) ≤ (((2 : ℤ) ^ 53 : ℤ) : ℚ) := by
    rw [div_le_iff₀ hu]
    have e : (((2 : ℤ) ^ 53 : ℤ) : ℚ) * 2 ^ (binade x - 52) = (2 : ℚ) ^ (binade x + 1) := by
      have : (((2 : ℤ) ^ 53 : ℤ) : ℚ) = (2 : ℚ) ^ (53 : ℤ) := by norm_num
      rw [this, ← zpow_add₀ (by norm_num : (2 : ℚ) ≠ 0)]
      congr 1
      ring
    rw [e]
    exact le_of_lt h1
  have h3 := roundHalfEven_mono h2
  rw [roundHalfEven_intCast] at h3
  unfold round64
  have e : (2 : ℚ) ^ (binade x + 1) = (((2 : ℤ) ^ 53 : ℤ) : ℚ) * 2 ^ (binade x - 52) := by
    have : (((2 : ℤ) ^ 53 : ℤ) : ℚ) = (2 : ℚ) ^ (53 : ℤ) := by norm_num
    rw [this, ← zpow_add₀ (by norm_num : (2 : ℚ) ≠ 0)]
    congr 1
    ring
  rw [e]
  exact mul_le_mul_of_nonneg_right (by exact_mod_cast h3) hu.le

theorem bot_le_round64 {y : ℚ} (hy : 0 < y) (hn : -1022 < binade y) :
    (2 : ℚ) ^ binade y ≤ round64 y := by
  have hu : (0 : ℚ) < 2 ^ (binade y - 52) := zpow_pos (by norm_num) _
  have hbin : binade y = Int.log 2 |y| := by
    unfold binade at hn ⊢
    rcases le_total (Int.log 2 |y|) (-1022) with h | h
    · rw [max_eq_right h] at hn
      omega
    · exact max_eq_left h
  have h1 : (2 : ℚ) ^ binade y ≤ y := by
    have := Int.zpow_log_le_self (b := 2) (r := |y|) (by norm_num) (abs_pos.mpr (ne_of_gt hy))
    rw [abs_of_pos hy] at this
    rw [hbin, abs_of_pos hy]
    exact_mod_cast this
  have e : (2 : ℚ) ^ binade y = (((2 : ℤ) ^ 52 : ℤ) : ℚ) * 2 ^ (binade y - 52) := by
    have : (((2 : ℤ) ^ 52 : ℤ) : ℚ) = (2 : ℚ) ^ (52 : ℤ) := by norm_num
    rw [this, ← zpow_add₀ (by norm_num : (2 : ℚ) ≠ 0)]
    congr 1
    ring
  have h2 : (((2 : ℤ) ^ 52 : ℤ) : ℚ) ≤ y / 2 ^ (binade y - 52) := by
    rw [le_div_iff₀ hu, ← e]
    exact h1
  have h3 := roundHalfEven_mono h2
  rw [roundHalfEven_intCast] at h3
  unfold round64
  rw [e]
  exact mul_le_mul_of_nonneg_right (by exact_mod_cast h3) hu.le

theorem round64_mono_pos {x y : ℚ} (hx : 0 < x) (hxy : x ≤ y) : round64 x ≤ round64 y := by
  have hy : 0 < y := lt_of_lt_of_le hx hxy
  rcases lt_or_eq_of_le (binade_mono_pos hx hxy) with hlt | heq
  · have hlow : -1022 ≤ binade x := le_max_right _ _
    calc round64 x ≤ (2 : ℚ) ^ (binade x + 1) := round64_le_top hx
      _ ≤ (2 : ℚ) ^ binade y := zpow_le_zpow_right₀ (by norm_num) (by omega)
      _ ≤ round64 y := bot_le_round64 hy (by omega)
  · unfold round64
    rw [heq]
    have hu : (0 : ℚ) < 2 ^ (binade y - 52) := zpow_pos (by norm_num) _
    have := roundHalfEven_mono (div_le_div_of_nonneg_right hxy hu.le)
    exact mul_le_mul_of_nonneg_right (by exact_mod_cast this) hu.le

theorem round64_mono : Monotone round64 := by
  intro x y hxy
  rcases lt_trichotomy 0 x with hx | hx | hx
  · exact round64_mono_pos hx hxy
  · subst hx
    rw [round64_zero]
    exact round64_nonneg hxy
  · rcases lt_or_le y 0 with hy | hy
    · have := round64_mono_pos (x := -y) (y := -x) (by linarith) (by linarith)
      rw [round64_neg, round64_neg] at this
      linarith
    · have h1 : round64 x ≤ 0 := by
        have := round64_nonneg (q := -x) (by linarith)
        rw [round64_neg] at this
        linarith
      exact le_trans h1 (round64_nonneg hy)

theorem round64_natCast (n : ℕ) (h : (n : ℚ) < 2 ^ 51) : round64 (n : ℚ) = (n : ℚ) :=
  round64_exact _ ⟨4 * (n : ℤ), by push_cast; ring⟩ (by rw [abs_of_nonneg (Nat.cast_nonneg n)]; exact h)

theorem round64_half_natCast (n : ℕ) (h : (n : ℚ) < 2 ^ 51) :
    round64 ((n : ℚ) / 2) = (n : ℚ) / 2 :=
  round64_exact _ ⟨2 * (n : ℤ), by push_cast; ring⟩
    (by
      rw [abs_of_nonneg (div_nonneg (Nat.cast_nonneg n) (by norm_num))]
      have : (0 : ℚ) ≤ (n : ℚ) := Nat.cast_nonneg n
      linarith)

/-! ### Values of the rounding -/

theorem roundHalfEven_tie (q : ℚ) (f : ℤ) (h : q = (f : ℚ) + 1 / 2) :
    roundHalfEven q = if f % 2 = 0 then f else f + 1 := by
  have hf : ⌊q⌋ = f := by
    rw [Int.floor_eq_iff, h]
    constructor <;> linarith
  unfold roundHalfEven
  rw [hf, h]
  have e : (f : ℚ) + 1 / 2 - (f : ℚ) = 1 / 2 := by ring
  rw [e, if_neg (lt_irrefl _), if_neg (lt_irrefl _)]

theorem roundHalfEven_up (q : ℚ) (f : ℤ) (h1 : (f : ℚ) + 1 / 2 < q) (h2 : q < (f : ℚ) + 1) :
    roundHalfEven q = f + 1 := by
  have hf : ⌊q⌋ = f := by
    rw [Int.floor_eq_iff]
    constructor <;> linarith
  unfold roundHalfEven
  rw [hf, if_neg (by linarith), if_pos (by linarith)]

theorem round64_samples :
    round64 1 = 1 ∧ round64 (1 / 2) = 1 / 2 ∧ round64 (3 / 2) = 3 / 2 ∧ round64 3 = 3 ∧
      round64 6 = 6 ∧ round64 10 = 10 ∧ round64 20 = 20 ∧ round64 30 = 30 ∧
      round64 40 = 40 ∧ round64 60 = 60 ∧ round64 120 = 120 := by
  refine ⟨?_, ?_, ?_, ?_, ?_, ?_, ?_, ?_, ?_, ?_, ?_⟩
  · simpa using round64_natCast 1 (by norm_num)
  · simpa using round64_half_natCast 1 (by norm_num)
  · simpa using round64_half_natCast 3 (by norm_num)
  · simpa using round64_natCast 3 (by norm_num)
  · simpa using round64_natCast 6 (by norm_num)
  · simpa using round64_natCast 10 (by norm_num)
  · simpa using round64_natCast 20 (by norm_num)
  · simpa using round64_natCast 30 (by norm_num)
  · simpa using round64_natCast 40 (by norm_num)
  · simpa using round64_natCast 60 (by norm_num)
  · simpa using round64_natCast 120 (by norm_num)

theorem round64_more :
    round64 0 = 0 ∧ round64 2 = 2 ∧ round64 5 = 5 ∧ round64 15 = 15 ∧ round64 45 = 45 ∧
      round64 170 = 170 ∧ round64 190 = 190 ∧ round64 200 = 200 ∧ round64 (45 / 2) = 45 / 2 ∧
      round64 44 = 44 ∧ round64 (3 / 4) = 3 / 4 ∧ round64 (1 / 4) = 1 / 4 := by
  refine ⟨round64_zero, ?_, ?_, ?_, ?_, ?_, ?_, ?_, ?_, ?_, ?_, ?_⟩
  · simpa using round64_natCast 2 (by norm_num)
  · simpa using round64_natCast 5 (by norm_num)
  · simpa using round64_natCast 15 (by norm_num)
  · simpa using round64_natCast 45 (by norm_num)
  · simpa using round64_natCast 170 (by norm_num)
  · simpa using round64_natCast 190 (by norm_num)
  · simpa using round64_natCast 200 (by norm_num)
  · simpa using round64_half_natCast 45 (by norm_num)
  · simpa using round64_natCast 44 (by norm_num)
  · exact round64_exact _ ⟨3, by norm_num⟩ (by rw [abs_of_pos (by norm_num)]; norm_num)
  · exact round64_exact _ ⟨1, by norm_num⟩ (by rw [abs_of_pos (by norm_num)]; norm_num)

theorem round64_large :
    round64 9007199254740993 = 9007199254740992 ∧
      round64 9007199254740992 = 9007199254740992 ∧
      round64 180143985094819840 = 180143985094819840 := by
  refine ⟨?_, ?_, ?_⟩
  · rw [round64_eq 9007199254740993 53 4503599627370496 (by norm_num) (by norm_num) (by norm_num)
      (by
        rw [roundHalfEven_tie _ 4503599627370496 (by norm_num)]
        decide)]
    norm_num
  · rw [round64_eq 9007199254740992 53 4503599627370496 (by norm_num) (by norm_num) (by norm_num)
      (by
        have e : (9007199254740992 : ℚ) / 2 ^ ((53 : ℤ) - 52) = ((4503599627370496 : ℤ) : ℚ) := by
          norm_num
        rw [e, roundHalfEven_intCast])]
    norm_num
  · rw [round64_eq 180143985094819840 57 5629499534213120 (by norm_num) (by norm_num) (by norm_num)
      (by
        have e : (180143985094819840 : ℚ) / 2 ^ ((57 : ℤ) - 52) = ((5629499534213120 : ℤ) : ℚ) := by
          norm_num
        rw [e, roundHalfEven_intCast])]
    norm_num

theorem round64_thirds :
    round64 (20 / 3) = 7505999378950827 / 1125899906842624 ∧
      round64 (7505999378950827 / 562949953421312) = 7505999378950827 / 562949953421312 ∧
      round64 (13135498913163947 / 562949953421312) = 3283874728290987 / 140737488355328 ∧
      round64 (9382499223688533 / 562949953421312) = 2345624805922133 / 140737488355328 := by
  refine ⟨?_, ?_, ?_, ?_⟩
  · rw [round64_eq (20 / 3) 2 7505999378950827 (by norm_num)
      (by rw [abs_of_pos (by norm_num)]; norm_num) (by rw [abs_of_pos (by norm_num)]; norm_num)
      (by
        rw [roundHalfEven_up _ 7505999378950826 (by norm_num) (by norm_num)]
        norm_num)]
    norm_num
  · rw [round64_eq _ 3 7505999378950827 (by norm_num)
      (by rw [abs_of_pos (by norm_num)]; norm_num) (by rw [abs_of_pos (by norm_num)]; norm_num)
      (by
        have e : (7505999378950827 / 562949953421312 : ℚ) / 2 ^ ((3 : ℤ) - 52) =
            ((7505999378950827 : ℤ) : ℚ) := by norm_num
        rw [e, roundHalfEven_intCast])]
    norm_num
  · rw [round64_eq _ 4 6567749456581974 (by norm_num)
      (by rw [abs_of_pos (by norm_num)]; norm_num) (by rw [abs_of_pos (by norm_num)]; norm_num)
      (by
        rw [roundHalfEven_tie _ 6567749456581973 (by norm_num)]
        decide)]
    norm_num
  · rw [round64_eq _ 4 4691249611844266 (by norm_num)
      (by rw [abs_of_pos (by norm_num)]; norm_num) (by rw [abs_of_pos (by norm_num)]; norm_num)
      (by
        rw [roundHalfEven_tie _ 4691249611844266 (by norm_num)]
        decide)]
    norm_num

/-! ## The program in double arithmetic -/

theorem drawRouteFl_id (b : Route) : b.drawRouteFl id = b.drawRoute := by
  unfold Route.drawRouteFl Route.drawRoute
  simp only [id]

theorem drawDotFl_id (PI : ℚ) (b : Commit) : b.drawDotFl id PI = b.drawDot PI := by
  unfold Commit.drawDotFl Commit.drawDot
  simp only [id]

theorem drawRoutesFl_id (rs : List Route) : drawRoutesFl id rs = drawRoutes rs := by
  induction rs with
  | nil => rfl
  | cons g rest ih => simp only [drawRoutesFl, drawRoutes, drawRouteFl_id, ih]

theorem drawFromFl_id (PI : ℚ) (o : Options) (d : ℕ) (data : List RawCommit) :
    drawFromFl id PI o d data = drawFrom PI o d data := by
  induction data generalizing d with
  | nil => rfl
  | cons x rest ih => simp only [drawFromFl, drawFrom, drawRoutesFl_id, drawDotFl_id, ih]

theorem optionsFl_id (data : List RawCommit) (b : UserOptions) :
    Graph.optionsFl id data b = Graph.options data b := by
  unfold Graph.optionsFl Graph.options branchCountFl branchCount
  simp only [id, Int.cast_add, Int.cast_one]

theorem newGraphCanvasFl_id (devicePixelRatio : Option ℚ) (a : List RawCommit)
    (b : LayoutOptions) :
    newGraphCanvasFl id devicePixelRatio a b = newGraphCanvas devicePixelRatio a b := by
  unfold newGraphCanvasFl newGraphCanvas
  simp only [id]

theorem renderFl_id (devicePixelRatio : Option ℚ) (PI : ℚ) (data : List RawCommit)
    (b : UserOptions) :
    Graph.renderFl id devicePixelRatio PI data b = Graph.render devicePixelRatio PI data b := by
  unfold Graph.renderFl Graph.render GraphCanvas.drawFl GraphCanvas.draw
  simp only [optionsFl_id, newGraphCanvasFl_id, drawFromFl_id]

theorem fl_quarter (fl : ℚ → ℚ) (hfl : ExactOnQuarterIntegers fl) (x : ℚ) (n : ℤ)
    (hx : x = (n : ℚ) / 4) (hb : |x| < 2 ^ 51) : fl x = x :=
  hfl x ⟨n, hx⟩ hb

theorem fl_index (fl : ℚ → ℚ) (hfl : ExactOnQuarterIntegers fl) (i : ℕ) (hi : i ≤ 2 ^ 50) :
    fl ((i : ℚ) + 1 / 2) = (i : ℚ) + 1 / 2 ∧
      fl ((i : ℚ) + 1 / 2 + 1) = (i : ℚ) + 1 + 1 / 2 ∧
      fl ((i : ℚ) + 1 + 1 / 2) = (i : ℚ) + 1 + 1 / 2 := by
  have hiq : (i : ℚ) ≤ 2 ^ 50 := by exact_mod_cast hi
  have h0 : (0 : ℚ) ≤ (i : ℚ) := Nat.cast_nonneg i
  have e1 : fl ((i : ℚ) + 1 / 2) = (i : ℚ) + 1 / 2 :=
    fl_quarter fl hfl _ (4 * (i : ℤ) + 2) (by push_cast; ring)
      (by rw [abs_of_nonneg (by linarith)]; linarith)
  have e2 : fl ((i : ℚ) + 1 + 1 / 2) = (i : ℚ) + 1 + 1 / 2 :=
    fl_quarter fl hfl _ (4 * (i : ℤ) + 6) (by push_cast; ring)
      (by rw [abs_of_nonneg (by linarith)]; linarith)
  refine ⟨e1, ?_, e2⟩
  rw [show (i : ℚ) + 1 / 2 + 1 = (i : ℚ) + 1 + 1 / 2 by ring]
  exact e2

/-- C5 (as stated, refuted): two routes with `from != to` that the program draws as
a straight `lineTo`, without a curve. With `x_step = 0` in vertical orientation the
end points of the route `[0, 1, 0]` have the same `x` and the test `g === i`
succeeds. With the default options the end points of the route
`[2^53, 2^53 - 1, 0]` have the same `x` as well: the sum `2^53 + 1` is rounded to
the double `2^53`. -/
theorem drawRouteFl_cross_lane_straight :
    ((newRoute 0 ⟨0, 1, 0⟩ { sampleOptions with x_step := 0 }).from_ ≠
        (newRoute 0 ⟨0, 1, 0⟩ { sampleOptions with x_step := 0 }).to_ ∧
      (newRoute 0 ⟨0, 1, 0⟩ { sampleOptions with x_step := 0 }).drawRouteFl round64 =
        [CanvasOp.setStrokeStyle (some "#e11d21"), CanvasOp.beginPath,
         CanvasOp.moveTo 0 10, CanvasOp.lineTo 0 30, CanvasOp.stroke]) ∧
      ((newRoute 0 ⟨9007199254740992, 9007199254740991, 0⟩ sampleOptions).from_ ≠
          (newRoute 0 ⟨9007199254740992, 9007199254740991, 0⟩ sampleOptions).to_ ∧
        (newRoute 0 ⟨9007199254740992, 9007199254740991, 0⟩ sampleOptions).drawRouteFl round64 =
          [CanvasOp.setStrokeStyle (some "#e11d21"), CanvasOp.beginPath,
           CanvasOp.moveTo 180143985094819840 10, CanvasOp.lineTo 180143985094819840 30,
           CanvasOp.stroke]) := by
  have hc : get_color 0 = some "#e11d21" := by decide
  obtain ⟨r1, r12, r32, _, _, r10, _, r30, _, _, _⟩ := round64_samples
  obtain ⟨r0, r2, _⟩ := round64_more
  obtain ⟨b1, b2, b3⟩ := round64_large
  refine ⟨⟨by decide, ?_⟩, ⟨by simp only [newRoute]; omega, ?_⟩⟩
  · simp [Route.drawRouteFl, newRoute, sampleOptions, hc]
    norm_num [r0, r1, r2, r12, r32, r10, r30]
  · simp only [Route.drawRouteFl, newRoute, sampleOptions, hc]
    norm_num [r12, r32, r10, r30, b1, b2, b3]

/-- C5 (amended): a route whose origin and destination differ in their computed
cross-axis coordinate has `from != to` and is drawn, in double arithmetic and in
either orientation, as one path: `moveTo` the computed position of (commit index,
`from`), then exactly one cubic curve ending at the computed position of (commit
index + 1, `to`), and no `lineTo`. -/
theorem drawRouteFl_curve (fl : ℚ → ℚ) (hfl : ExactOnQuarterIntegers fl) (i : ℕ) (r : RawRoute)
    (o : Options) (hi : i ≤ 2 ^ 50)
    (hne : crossCoord o (flPosition fl o i r.from_) ≠
      crossCoord o (flPosition fl o (i + 1) r.to_)) :
    r.from_ ≠ r.to_ ∧
      ∃ c1x c1y c2x c2y, (newRoute i r o).drawRouteFl fl =
        [CanvasOp.setStrokeStyle (get_color r.branch), CanvasOp.beginPath,
         CanvasOp.moveTo (flPosition fl o i r.from_).1 (flPosition fl o i r.from_).2,
         CanvasOp.bezierCurveTo c1x c1y c2x c2y
           (flPosition fl o (i + 1) r.to_).1 (flPosition fl o (i + 1) r.to_).2,
         CanvasOp.stroke] := by
  obtain ⟨e1, e2, e3⟩ := fl_index fl hfl i hi
  constructor
  · intro hft
    apply hne
    rw [hft]
    unfold flPosition crossCoord
    cases o.orientation <;> rfl
  · unfold Route.drawRouteFl
    unfold flPosition crossCoord at hne
    unfold flPosition
    cases ho : o.orientation
    · simp only [ho] at hne
      simp only [newRoute, ho, if_neg hne, List.cons_append, List.nil_append,
        List.singleton_append, e1, e2, e3]
      exact ⟨_, _, _, _, rfl⟩
    · simp only [ho] at hne
      simp only [newRoute, ho, if_neg hne, List.cons_append, List.nil_append,
        List.singleton_append, e1, e2, e3]
      rcases lt_or_gt_of_ne hne with hlt | hgt
      · rw [if_neg (not_lt.mpr (le_of_lt hlt)), if_pos hlt]
        exact ⟨_, _, _, _, rfl⟩
      · rw [if_pos hgt]
        exact ⟨_, _, _, _, rfl⟩

/-- Witness of C5 (amended): the route `[0, 1, 0]` of commit 0, default options,
whose end points have the cross-axis coordinates 20 and 40. -/
theorem drawRouteFl_curve_witness :
    ∃ c1x c1y c2x c2y, (newRoute 0 ⟨0, 1, 0⟩ sampleOptions).drawRouteFl round64 =
      [CanvasOp.setStrokeStyle (get_color 0), CanvasOp.beginPath,
       CanvasOp.moveTo (flPosition round64 sampleOptions (0 : ℕ) (0 : ℤ)).1
         (flPosition round64 sampleOptions (0 : ℕ) (0 : ℤ)).2,
       CanvasOp.bezierCurveTo c1x c1y c2x c2y
         (flPosition round64 sampleOptions ((0 : ℕ) + 1) (1 : ℤ)).1
         (flPosition round64 sampleOptions ((0 : ℕ) + 1) (1 : ℤ)).2,
       CanvasOp.stroke] :=
  (drawRouteFl_curve round64 round64_exact 0 ⟨0, 1, 0⟩ sampleOptions (by norm_num)
    (by
      have r1 : round64 1 = 1 := by simpa using round64_natCast 1 (by norm_num)
      have r2 : round64 2 = 2 := by simpa using round64_natCast 2 (by norm_num)
      have r20 : round64 20 = 20 := by simpa using round64_natCast 20 (by norm_num)
      have r40 : round64 40 = 40 := by simpa using round64_natCast 40 (by norm_num)
      simp [crossCoord, flPosition, sampleOptions]
      norm_num [r1, r2, r20, r40])).2

/-! ### Inputs on which double arithmetic is exact -/

theorem QuarterInteger.add {x y : ℚ} (hx : QuarterInteger x) (hy : QuarterInteger y) :
    QuarterInteger (x + y) := by
  obtain ⟨m, rfl⟩ := hx
  obtain ⟨n, rfl⟩ := hy
  exact ⟨m + n, by push_cast; ring⟩

theorem QuarterInteger.sub {x y : ℚ} (hx : QuarterInteger x) (hy : QuarterInteger y) :
    QuarterInteger (x - y) := by
  obtain ⟨m, rfl⟩ := hx
  obtain ⟨n, rfl⟩ := hy
  exact ⟨m - n, by push_cast; ring⟩

theorem QuarterInteger.mul_int {x : ℚ} (hx : QuarterInteger x) (n : ℤ) :
    QuarterInteger (x * (n : ℚ)) := by
  obtain ⟨m, rfl⟩ := hx
  exact ⟨m * n, by push_cast; ring⟩

theorem QuarterInteger.of_int (n : ℤ) : QuarterInteger (n : ℚ) :=
  ⟨4 * n, by push_cast; ring⟩

theorem abs_mul_le_of_le {x y A B : ℚ} (hx : |x| ≤ A) (hy : |y| ≤ B) : |x * y| ≤ A * B := by
  rw [abs_mul]
  exact mul_le_mul hx hy (abs_nonneg y) (le_trans (abs_nonneg x) hx)

theorem abs_add_le_of_le {x y A B : ℚ} (hx : |x| ≤ A) (hy : |y| ≤ B) : |x + y| ≤ A + B :=
  le_trans (abs_add x y) (add_le_add hx hy)

theorem abs_sub_le_of_le {x y A B : ℚ} (hx : |x| ≤ A) (hy : |y| ≤ B) : |x - y| ≤ A + B :=
  le_trans (abs_sub x y) (add_le_add hx hy)

theorem abs_intCast_le (n : ℤ) (h : |n| ≤ 32768) : |(n : ℚ)| ≤ 32768 := by
  have : ((|n| : ℤ) : ℚ) ≤ ((32768 : ℤ) : ℚ) := Int.cast_le.mpr h
  simpa [Int.cast_abs] using this

/-- A product `x * y * z` of a quarter-integer `x` of magnitude at most 32770 and two
integers of magnitude at most 32768: both products are exact, and the result is a
quarter-integer of magnitude at most `2^46`. -/
theorem fl_mul3 (fl : ℚ → ℚ) (hfl : ExactOnQuarterIntegers fl) (x : ℚ) (a s : ℤ)
    (hq : QuarterInteger x) (hx : |x| ≤ 32770) (ha : |a| ≤ 32768) (hs : |s| ≤ 32768) :
    fl x = x ∧ fl (x * (a : ℚ)) = x * (a : ℚ) ∧
      fl (x * (a : ℚ) * (s : ℚ)) = x * (a : ℚ) * (s : ℚ) ∧
      QuarterInteger (x * (a : ℚ) * (s : ℚ)) ∧ |x * (a : ℚ) * (s : ℚ)| ≤ 2 ^ 46 := by
  have haq := abs_intCast_le a ha
  have hsq := abs_intCast_le s hs
  have b2 : |x * (a : ℚ)| ≤ 32770 * 32768 := abs_mul_le_of_le hx haq
  have b3 : |x * (a : ℚ) * (s : ℚ)| ≤ 32770 * 32768 * 32768 := abs_mul_le_of_le b2 hsq
  refine ⟨hfl x hq (lt_of_le_of_lt hx (by norm_num)),
    hfl _ (hq.mul_int a) (lt_of_le_of_lt b2 (by norm_num)),
    hfl _ ((hq.mul_int a).mul_int s) (lt_of_le_of_lt b3 (by norm_num)),
    (hq.mul_int a).mul_int s, le_trans b3 (by norm_num)⟩

/-- The scaled steps `a * s` with `a`, `s` integers of magnitude at most 32768: the
product and its quarter are exact. -/
theorem fl_step (fl : ℚ → ℚ) (hfl : ExactOnQuarterIntegers fl) (a s : ℤ)
    (ha : |a| ≤ 32768) (hs : |s| ≤ 32768) :
    fl ((a : ℚ) * (s : ℚ)) = (a : ℚ) * (s : ℚ) ∧
      fl ((a : ℚ) * (s : ℚ) / 4) = (a : ℚ) * (s : ℚ) / 4 ∧
      QuarterInteger ((a : ℚ) * (s : ℚ) / 4) ∧ |(a : ℚ) * (s : ℚ) / 4| ≤ 2 ^ 30 ∧
      |(a : ℚ) * (s : ℚ)| ≤ 2 ^ 30 := by
  have haq := abs_intCast_le a ha
  have hsq := abs_intCast_le s hs
  have b : |(a : ℚ) * (s : ℚ)| ≤ 32768 * 32768 := abs_mul_le_of_le haq hsq
  have b4 : |(a : ℚ) * (s : ℚ) / 4| ≤ 2 ^ 30 := by
    rw [abs_div, abs_of_pos (by norm_num : (0 : ℚ) < 4)]
    linarith
  have q4 : QuarterInteger ((a : ℚ) * (s : ℚ) / 4) := ⟨a * s, by push_cast; ring⟩
  refine ⟨hfl _ ((QuarterInteger.of_int a).mul_int s) (lt_of_le_of_lt b (by norm_num)),
    hfl _ q4 (lt_of_le_of_lt b4 (by norm_num)), q4, b4, le_trans b (by norm_num)⟩

/-- The two-thirds of a scaled step `p = 3 * k`: the division by 3 and the doubling
are exact. -/
theorem fl_two_thirds (fl : ℚ → ℚ) (hfl : ExactOnQuarterIntegers fl) (p : ℚ) (k : ℤ)
    (hp : p = 3 * (k : ℚ)) (hb : |p| ≤ 2 ^ 30) :
    fl (p / 3) = p / 3 ∧ fl (p / 3 * 2) = p / 3 * 2 ∧
      QuarterInteger (p / 3 * 2) ∧ |p / 3 * 2| ≤ 2 ^ 30 := by
  have e3 : p / 3 = (k : ℚ) := by rw [hp]; ring
  have bk : |(k : ℚ)| ≤ 2 ^ 30 / 3 := by
    rw [← e3, abs_div, abs_of_pos (by norm_num : (0 : ℚ) < 3)]
    exact div_le_div_of_nonneg_right hb (by norm_num)
  have b2 : |p / 3 * 2| ≤ 2 ^ 30 := by
    rw [e3, abs_mul, abs_of_pos (by norm_num : (0 : ℚ) < 2)]
    linarith
  have q2 : QuarterInteger (p / 3 * 2) := by
    rw [e3]
    exact (QuarterInteger.of_int k).mul_int 2
  refine ⟨?_, hfl _ q2 (lt_of_le_of_lt b2 (by norm_num)), q2, b2⟩
  rw [e3]
  exact hfl _ (QuarterInteger.of_int k) (lt_of_le_of_lt bk (by norm_num))

/-- On inputs where double arithmetic is exact, `drawRoute` in double arithmetic
makes the calls of `drawRoute` over the rationals. -/
theorem drawRouteFl_eq_drawRoute (fl : ℚ → ℚ) (hfl : ExactOnQuarterIntegers fl) (i : ℕ)
    (r : RawRoute) (o : Options) (hex : ExactRouteInput i r o) :
    (newRoute i r o).drawRouteFl fl = (newRoute i r o).drawRoute := by
  obtain ⟨a, b, s, w, k, hxs, hys, hsf, hwd, hP, hi, hf, ht, ha, hb, hs, hw⟩ := hex
  have hiq : (i : ℚ) ≤ 32768 := by exact_mod_cast hi
  have hi0 : (0 : ℚ) ≤ (i : ℚ) := Nat.cast_nonneg i
  have qf : QuarterInteger ((r.from_ : ℚ) + 1) := ⟨4 * (r.from_ + 1), by push_cast; ring⟩
  have bf : |(r.from_ : ℚ) + 1| ≤ 32770 :=
    le_trans (abs_add_le_of_le (abs_intCast_le _ hf) (le_of_eq abs_one)) (by norm_num)
  have qt : QuarterInteger ((r.to_ : ℚ) + 1) := ⟨4 * (r.to_ + 1), by push_cast; ring⟩
  have bt : |(r.to_ : ℚ) + 1| ≤ 32770 :=
    le_trans (abs_add_le_of_le (abs_intCast_le _ ht) (le_of_eq abs_one)) (by norm_num)
  have qi : QuarterInteger ((i : ℚ) + 1 / 2) := ⟨4 * (i : ℤ) + 2, by push_cast; ring⟩
  have bi : |(i : ℚ) + 1 / 2| ≤ 32770 := by
    rw [abs_of_nonneg (by linarith)]; linarith
  have qj : QuarterInteger ((i : ℚ) + 1 / 2 + 1) := ⟨4 * (i : ℤ) + 6, by push_cast; ring⟩
  have bj : |(i : ℚ) + 1 / 2 + 1| ≤ 32770 := by
    rw [abs_of_nonneg (by linarith)]; linarith
  have hsm : ∀ x y : ℚ, QuarterInteger x → QuarterInteger y → |x| ≤ 2 ^ 46 → |y| ≤ 2 ^ 30 →
      fl (x + y) = x + y ∧ fl (x - y) = x - y := by
    intro x y qx qy bx bx'
    exact ⟨hfl _ (qx.add qy) (lt_of_le_of_lt (abs_add_le_of_le bx bx') (by norm_num)),
      hfl _ (qx.sub qy) (lt_of_le_of_lt (abs_sub_le_of_le bx bx') (by norm_num))⟩
  have hsw : fl ((w : ℚ) * (s : ℚ)) = (w : ℚ) * (s : ℚ) ∧ QuarterInteger ((w : ℚ) * (s : ℚ)) ∧
      |(w : ℚ) * (s : ℚ)| ≤ 2 ^ 30 :=
    ⟨(fl_step fl hfl w s hw hs).1, (QuarterInteger.of_int w).mul_int s,
      (fl_step fl hfl w s hw hs).2.2.2.2⟩
  have hdiff : ∀ x : ℚ, QuarterInteger x → |x| ≤ 2 ^ 46 →
      fl ((w : ℚ) * (s : ℚ) - x) = (w : ℚ) * (s : ℚ) - x ∧
        QuarterInteger ((w : ℚ) * (s : ℚ) - x) ∧ |(w : ℚ) * (s : ℚ) - x| ≤ 2 ^ 47 := by
    intro x qx bx
    have bb := abs_sub_le_of_le hsw.2.2 bx
    exact ⟨hfl _ (hsw.2.1.sub qx) (lt_of_le_of_lt bb (by norm_num)), hsw.2.1.sub qx,
      le_trans bb (by norm_num)⟩
  have hsm2 : ∀ x y : ℚ, QuarterInteger x → QuarterInteger y → |x| ≤ 2 ^ 47 → |y| ≤ 2 ^ 30 →
      fl (x + y) = x + y ∧ fl (x - y) = x - y := by
    intro x y qx qy bx bx'
    exact ⟨hfl _ (qx.add qy) (lt_of_le_of_lt (abs_add_le_of_le bx bx') (by norm_num)),
      hfl _ (qx.sub qy) (lt_of_le_of_lt (abs_sub_le_of_le bx bx') (by norm_num))⟩
  cases ho : o.orientation
  · -- vertical: lane step `a * s`, primary step `b * s = 3 * k`
    simp only [primaryStep, ho, hys, hsf] at hP
    obtain ⟨g1, g2, g3, gq, gb⟩ := fl_mul3 fl hfl _ a s qf bf ha hs
    obtain ⟨h1, h2, h3, hq, hbd⟩ := fl_mul3 fl hfl _ b s qi bi hb hs
    obtain ⟨i1, i2, i3, iq, ib⟩ := fl_mul3 fl hfl _ a s qt bt ha hs
    obtain ⟨j1, j2, j3, jq, jb⟩ := fl_mul3 fl hfl _ b s qj bj hb hs
    obtain ⟨l1, l2, lq, lb, _⟩ := fl_step fl hfl a s ha hs
    obtain ⟨p1, _, _, _, pb⟩ := fl_step fl hfl b s hb hs
    obtain ⟨t1, t2, tq, tb⟩ := fl_two_thirds fl hfl _ k hP pb
    have c1 := (hsm _ _ gq lq gb lb).2
    have c2 := (hsm _ _ hq tq hbd tb).1
    have c3 := (hsm _ _ iq lq ib lb).1
    have c4 := (hsm _ _ jq tq jb tb).2
    simp only [Route.drawRouteFl, Route.drawRoute, newRoute, ho, hxs, hys, hsf,
      g1, g2, g3, h1, h2, h3, i1, i2, i3, j1, j2, j3, l1, l2, p1, t1, t2, c1, c2, c3, c4]
  · -- horizontal: lane step `b * s`, primary step `a * s = 3 * k`
    simp only [primaryStep, ho, hxs, hsf] at hP
    obtain ⟨d1, d2, d3, dq, db⟩ := fl_mul3 fl hfl _ b s qf bf hb hs
    obtain ⟨f1, f2, f3, fq, fb⟩ := fl_mul3 fl hfl _ b s qt bt hb hs
    obtain ⟨u1, u2, u3, uq, ub⟩ := fl_mul3 fl hfl _ a s qi bi ha hs
    obtain ⟨v1, v2, v3, vq, vb⟩ := fl_mul3 fl hfl _ a s qj bj ha hs
    obtain ⟨cx, cq, cb⟩ := hdiff _ uq ub
    obtain ⟨ex, eq, eb⟩ := hdiff _ vq vb
    obtain ⟨l1, l2, lq, lb, _⟩ := fl_step fl hfl b s hb hs
    obtain ⟨p1, _, _, _, pb⟩ := fl_step fl hfl a s ha hs
    obtain ⟨t1, t2, tq, tb⟩ := fl_two_thirds fl hfl _ k hP pb
    have k1 := (hsm2 _ _ cq tq cb tb).2
    have k2 := (hsm2 _ _ eq tq eb tb).1
    have k3 := hsm _ _ dq lq db lb
    have k4 := hsm _ _ fq lq fb lb
    simp only [Route.drawRouteFl, Route.drawRoute, newRoute, ho, hxs, hys, hsf, hwd,
      d1, d2, d3, f1, f2, f3, u1, u2, u3, v1, v2, v3, hsw.1, cx, ex, l1, l2, p1, t1, t2,
      k1, k2, k3.1, k3.2, k4.1, k4.2]

/-- C6 (as stated, refuted): in horizontal orientation with `y_step = 0` the route
`[0, 1, 0]` has `from != to` and is drawn as a straight `lineTo`, with no control
point at all. With the default options the route `[0, 1, 0]` is drawn as
`bezierCurveTo(15, 23.333333333333336, 45, 16.666666666666664, 40, 30)` from
`(20, 10)`: the quotient `20 / 3` is rounded, and the control points are not at
two-thirds of the primary step 20 from the origin and the destination. -/
theorem drawRouteFl_offsets_rounded :
    ((newRoute 0 ⟨0, 1, 0⟩
          { sampleOptions with orientation := Orientation.horizontal, y_step := 0 }).from_ ≠
        (newRoute 0 ⟨0, 1, 0⟩
          { sampleOptions with orientation := Orientation.horizontal, y_step := 0 }).to_ ∧
      (newRoute 0 ⟨0, 1, 0⟩
          { sampleOptions with orientation := Orientation.horizontal, y_step := 0 }).drawRouteFl
            round64 =
        [CanvasOp.setStrokeStyle (some "#e11d21"), CanvasOp.beginPath,
         CanvasOp.moveTo 190 0, CanvasOp.lineTo 170 0, CanvasOp.stroke]) ∧
      ((newRoute 0 ⟨0, 1, 0⟩ sampleOptions).from_ ≠ (newRoute 0 ⟨0, 1, 0⟩ sampleOptions).to_ ∧
        (newRoute 0 ⟨0, 1, 0⟩ sampleOptions).drawRouteFl round64 =
          [CanvasOp.setStrokeStyle (some "#e11d21"), CanvasOp.beginPath,
           CanvasOp.moveTo 20 10,
           CanvasOp.bezierCurveTo 15 (3283874728290987 / 140737488355328)
             45 (2345624805922133 / 140737488355328) 40 30,
           CanvasOp.stroke] ∧
        |primaryCoord sampleOptions (15, 3283874728290987 / 140737488355328) -
            primaryCoord sampleOptions (20, 10)| ≠
          2 / 3 * |primaryStep sampleOptions * sampleOptions.scaleFactor| ∧
        |primaryCoord sampleOptions (45, 2345624805922133 / 140737488355328) -
            primaryCoord sampleOptions (40, 30)| ≠
          2 / 3 * |primaryStep sampleOptions * sampleOptions.scaleFactor|) := by
  have hc : get_color 0 = some "#e11d21" := by decide
  obtain ⟨r1, r12, r32, _, _, r10, r20, r30, r40, _, _⟩ := round64_samples
  obtain ⟨r0, r2, r5, r15, r45, r170, r190, r200, _⟩ := round64_more
  obtain ⟨t1, t2, t3, t4⟩ := round64_thirds
  refine ⟨⟨by decide, ?_⟩, ⟨by decide, ?_, ?_, ?_⟩⟩
  · simp [Route.drawRouteFl, newRoute, sampleOptions, hc]
    norm_num [r0, r1, r2, r12, r32, r10, r30, r170, r190, r200]
  · simp [Route.drawRouteFl, newRoute, sampleOptions, hc]
    norm_num [r1, r2, r12, r32, r10, r20, r30, r40, r5, r15, r45, t1, t2, t3, t4]
  · simp only [primaryCoord, primaryStep, sampleOptions]
    rw [abs_of_pos (by norm_num), abs_of_pos (by norm_num)]
    norm_num
  · simp only [primaryCoord, primaryStep, sampleOptions]
    rw [abs_of_neg (by norm_num), abs_of_pos (by norm_num)]
    norm_num

/-- C6 (amended): for a cross-lane route with a non-zero scaled lane step, on inputs
where double arithmetic is exact (integer steps, scale factor and width, scaled
primary step a multiple of 3, magnitudes at most 32768), `drawRoute` draws one
curve from the origin to the destination whose first control point differs from
the origin, and whose second differs from the destination, by exactly two-thirds
of the scaled primary step along the primary axis and exactly one quarter of
the scaled lane step along the cross axis, in absolute value. -/
theorem drawRouteFl_control_offsets (fl : ℚ → ℚ) (hfl : ExactOnQuarterIntegers fl) (i : ℕ)
    (r : RawRoute) (o : Options) (hex : ExactRouteInput i r o) (h : r.from_ ≠ r.to_)
    (hs : laneStep o * o.scaleFactor ≠ 0) :
    ∃ c1x c1y c2x c2y,
      (newRoute i r o).drawRouteFl fl =
        [CanvasOp.setStrokeStyle (get_color r.branch), CanvasOp.beginPath,
         CanvasOp.moveTo (specPosition o i r.from_).1 (specPosition o i r.from_).2,
         CanvasOp.bezierCurveTo c1x c1y c2x c2y
           (specPosition o (i + 1) r.to_).1 (specPosition o (i + 1) r.to_).2,
         CanvasOp.stroke] ∧
      |primaryCoord o (c1x, c1y) - primaryCoord o (specPosition o i r.from_)| =
        2 / 3 * |primaryStep o * o.scaleFactor| ∧
      |primaryCoord o (c2x, c2y) - primaryCoord o (specPosition o (i + 1) r.to_)| =
        2 / 3 * |primaryStep o * o.scaleFactor| ∧
      |crossCoord o (c1x, c1y) - crossCoord o (specPosition o i r.from_)| =
        1 / 4 * |laneStep o * o.scaleFactor| ∧
      |crossCoord o (c2x, c2y) - crossCoord o (specPosition o (i + 1) r.to_)| =
        1 / 4 * |laneStep o * o.scaleFactor| := by
  obtain ⟨c1x, c1y, c2x, c2y, hops⟩ := drawRoute_curve i r o h hs
  have hm : CanvasOp.bezierCurveTo c1x c1y c2x c2y
      (specPosition o (i + 1) r.to_).1 (specPosition o (i + 1) r.to_).2 ∈
      (newRoute i r o).drawRoute := by
    rw [hops]
    simp
  have hoff := drawRoute_control_offsets i r o c1x c1y c2x c2y _ _ h hm
  refine ⟨c1x, c1y, c2x, c2y, ?_, hoff.2⟩
  rw [drawRouteFl_eq_drawRoute fl hfl i r o hex, hops]

/-- Witness of C6 (amended): the route `[0, 1, 0]` of commit 0 with `y_step = 30`
(scaled primary step 30, scaled lane step 20) and the other options at their defaults. -/
theorem drawRouteFl_control_offsets_witness :
    ∃ c1x c1y c2x c2y,
      (newRoute 0 ⟨0, 1, 0⟩ { sampleOptions with y_step := 30 }).drawRouteFl round64 =
        [CanvasOp.setStrokeStyle (get_color 0), CanvasOp.beginPath,
         CanvasOp.moveTo (specPosition { sampleOptions with y_step := 30 } (0 : ℕ) (0 : ℤ)).1
           (specPosition { sampleOptions with y_step := 30 } (0 : ℕ) (0 : ℤ)).2,
         CanvasOp.bezierCurveTo c1x c1y c2x c2y
           (specPosition { sampleOptions with y_step := 30 } ((0 : ℕ) + 1) (1 : ℤ)).1
           (specPosition { sampleOptions with y_step := 30 } ((0 : ℕ) + 1) (1 : ℤ)).2,
         CanvasOp.stroke] ∧
      |primaryCoord { sampleOptions with y_step := 30 } (c1x, c1y) -
          primaryCoord { sampleOptions with y_step := 30 }
            (specPosition { sampleOptions with y_step := 30 } (0 : ℕ) (0 : ℤ))| =
        2 / 3 * |primaryStep { sampleOptions with y_step := 30 } *
          ({ sampleOptions with y_step := 30 } : Options).scaleFactor| ∧
      |primaryCoord { sampleOptions with y_step := 30 } (c2x, c2y) -
          primaryCoord { sampleOptions with y_step := 30 }
            (specPosition { sampleOptions with y_step := 30 } ((0 : ℕ) + 1) (1 : ℤ))| =
        2 / 3 * |primaryStep { sampleOptions with y_step := 30 } *
          ({ sampleOptions with y_step := 30 } : Options).scaleFactor| ∧
      |crossCoord { sampleOptions with y_step := 30 } (c1x, c1y) -
          crossCoord { sampleOptions with y_step := 30 }
            (specPosition { sampleOptions with y_step := 30 } (0 : ℕ) (0 : ℤ))| =
        1 / 4 * |laneStep { sampleOptions with y_step := 30 } *
          ({ sampleOptions with y_step := 30 } : Options).scaleFactor| ∧
      |crossCoord { sampleOptions with y_step := 30 } (c2x, c2y) -
          crossCoord { sampleOptions with y_step := 30 }
            (specPosition { sampleOptions with y_step := 30 } ((0 : ℕ) + 1) (1 : ℤ))| =
        1 / 4 * |laneStep { sampleOptions with y_step := 30 } *
          ({ sampleOptions with y_step := 30 } : Options).scaleFactor| :=
  drawRouteFl_control_offsets round64 round64_exact 0 ⟨0, 1, 0⟩
    { sampleOptions with y_step := 30 }
    ⟨20, 30, 1, 200, 10, by simp [sampleOptions], by simp [sampleOptions],
      by simp [sampleOptions], by simp [sampleOptions],
      by simp [primaryStep, sampleOptions]; norm_num,
      by norm_num, by decide, by decide, by decide, by decide, by decide, by decide⟩
    (by decide) (by simp [laneStep, sampleOptions])

/-! ### The backing store -/

theorem newGraphCanvasFl_style (fl : ℚ → ℚ) (devicePixelRatio : Option ℚ) (a : List RawCommit)
    (b : LayoutOptions) :
    (newGraphCanvasFl fl devicePixelRatio a b).2.style_width = b.width ∧
      (newGraphCanvasFl fl devicePixelRatio a b).2.style_height = b.height := by
  unfold newGraphCanvasFl
  cases b.orientation <;> simp only [] <;> split_ifs <;> exact ⟨rfl, rfl⟩

/-- C12 (as stated, refuted): with `x_step = 15` the width computed for one commit
with the route `[0, 0, 0]` is `22.5`; in vertical orientation on a display of
device pixel ratio 2 the canvas attribute holds 22 before and 44 after the
scaling, not `22.5 * 2 = 45`, and at scale 1 it holds 22 while the style width
is `22.5`. -/
theorem graphCanvasFl_fractional_width_cut :
    (Graph.optionsFl round64 [⟨"c0", (0, 0), [⟨0, 0, 0⟩]⟩]
        { noOptions with x_step := some 15 }).width = 45 / 2 ∧
      (Graph.optionsFl round64 [⟨"c0", (0, 0), [⟨0, 0, 0⟩]⟩]
        { noOptions with x_step := some 15 }).orientation = Orientation.vertical ∧
      (newGraphCanvasFl round64 (some 2) [⟨"c0", (0, 0), [⟨0, 0, 0⟩]⟩]
        (Graph.optionsFl round64 [⟨"c0", (0, 0), [⟨0, 0, 0⟩]⟩]
          { noOptions with x_step := some 15 })).2.width = 44 ∧
      (Graph.optionsFl round64 [⟨"c0", (0, 0), [⟨0, 0, 0⟩]⟩]
        { noOptions with x_step := some 15 }).width * 2 = 45 ∧
      (newGraphCanvasFl round64 none [⟨"c0", (0, 0), [⟨0, 0, 0⟩]⟩]
        (Graph.optionsFl round64 [⟨"c0", (0, 0), [⟨0, 0, 0⟩]⟩]
          { noOptions with x_step := some 15 })).2.width = 22 ∧
      (newGraphCanvasFl round64 none [⟨"c0", (0, 0), [⟨0, 0, 0⟩]⟩]
        (Graph.optionsFl round64 [⟨"c0", (0, 0), [⟨0, 0, 0⟩]⟩]
          { noOptions with x_step := some 15 })).2.style_width = 45 / 2 := by
  have hf : List.foldl branchCountCommit (-1) [⟨"c0", (0, 0), [⟨0, 0, 0⟩]⟩] = 0 := by decide
  obtain ⟨r1, _, r32, _⟩ := round64_samples
  obtain ⟨_, _, _, _, _, _, _, _, r452, r44, _⟩ := round64_more
  have hw : (Graph.optionsFl round64 [⟨"c0", (0, 0), [⟨0, 0, 0⟩]⟩]
      { noOptions with x_step := some 15 }).width = 45 / 2 := by
    simp [-Prod.mk_zero_zero, Graph.optionsFl, branchCountFl, extend, noOptions, Graph.defaults, hf]
    norm_num [r1, r32, r452]
  have ho : (Graph.optionsFl round64 [⟨"c0", (0, 0), [⟨0, 0, 0⟩]⟩]
      { noOptions with x_step := some 15 }).orientation = Orientation.vertical := by
    simp [Graph.optionsFl, extend, noOptions, Graph.defaults]
  have h22 : canvasAttribute 300 (45 / 2) = 22 := by
    simpa using canvasAttribute_eq 300 (45 / 2) 22 (by norm_num) (by norm_num) (by norm_num)
  have h44 : canvasAttribute 300 44 = 44 := by
    simpa using canvasAttribute_natCast 300 44 (by norm_num)
  refine ⟨hw, ho, ?_, ?_, ?_, ?_⟩
  · simp only [newGraphCanvasFl, ho, hw, backingScale, h22]
    norm_num [h44, r44]
  · rw [hw]; norm_num
  · simp only [newGraphCanvasFl, ho, hw, backingScale, h22]
    norm_num
  · rw [(newGraphCanvasFl_style _ _ _ _).1, hw]

theorem newGraphCanvasFl_canvas_vertical (fl : ℚ → ℚ) (devicePixelRatio : Option ℚ)
    (a : List RawCommit) (b : LayoutOptions) (hv : b.orientation = Orientation.vertical) :
    (newGraphCanvasFl fl devicePixelRatio a b).2.width =
        (if 1 < backingScale devicePixelRatio
          then canvasAttribute 300
            (fl (canvasAttribute 300 b.width * backingScale devicePixelRatio))
          else canvasAttribute 300 b.width) ∧
      (newGraphCanvasFl fl devicePixelRatio a b).2.height =
        (if 1 < backingScale devicePixelRatio
          then canvasAttribute 150
            (fl (canvasAttribute 150 b.height * backingScale devicePixelRatio))
          else canvasAttribute 150 b.height) := by
  simp only [newGraphCanvasFl, hv, gt_iff_lt]
  split_ifs <;> exact ⟨rfl, rfl⟩

theorem newGraphCanvasFl_options (fl : ℚ → ℚ) (devicePixelRatio : Option ℚ) (a : List RawCommit)
    (b : LayoutOptions) :
    (newGraphCanvasFl fl devicePixelRatio a b).1.options =
      { height := b.height, width := b.width, y_step := b.y_step, x_step := b.x_step,
        orientation := b.orientation, dotRadius := b.dotRadius, lineWidth := b.lineWidth,
        scaleFactor := backingScale devicePixelRatio } := rfl

theorem newGraphCanvasFl_data (fl : ℚ → ℚ) (devicePixelRatio : Option ℚ) (a : List RawCommit)
    (b : LayoutOptions) : (newGraphCanvasFl fl devicePixelRatio a b).1.data = a := rfl

theorem fl_natCast (fl : ℚ → ℚ) (hfl : ExactOnQuarterIntegers fl) (n : ℕ)
    (hn : n ≤ 2147483647) : fl (n : ℚ) = (n : ℚ) := by
  have hq : ((n : ℕ) : ℚ) ≤ 2147483647 := by exact_mod_cast hn
  refine hfl _ ⟨4 * (n : ℤ), by push_cast; ring⟩ ?_
  rw [abs_of_nonneg (Nat.cast_nonneg n)]
  exact lt_of_le_of_lt hq (by norm_num)

/-- C12 (amended): in vertical orientation, for a device scale factor `s > 1` and
options whose width and height, and whose products with `s`, are integers from 0
to 2147483647, the constructor `GraphCanvas` sets the backing-store size to
`options.width * s` by `options.height * s` and stores `scaleFactor = s`; the
presented (style) size is `options.width` by `options.height` whatever the device
pixel ratio; when the scale factor is 1 (ratio absent, or 1) backing and presented
sizes coincide. -/
theorem graphCanvasFl_vertical_backing_store (fl : ℚ → ℚ) (hfl : ExactOnQuarterIntegers fl)
    (devicePixelRatio : Option ℚ) (a : List RawCommit) (b : LayoutOptions) (s : ℚ)
    (w h ws hs : ℕ) (hv : b.orientation = Orientation.vertical) (h1 : 1 < s)
    (hw : b.width = (w : ℚ)) (hh : b.height = (h : ℚ))
    (hws : b.width * s = (ws : ℚ)) (hhs : b.height * s = (hs : ℚ))
    (hwb : ws ≤ 2147483647) (hhb : hs ≤ 2147483647) :
    backingScale (some s) = s ∧
      (newGraphCanvasFl fl (some s) a b).1.options.scaleFactor = s ∧
      (newGraphCanvasFl fl (some s) a b).2.width = b.width * s ∧
      (newGraphCanvasFl fl (some s) a b).2.height = b.height * s ∧
      (newGraphCanvasFl fl devicePixelRatio a b).2.style_width = b.width ∧
      (newGraphCanvasFl fl devicePixelRatio a b).2.style_height = b.height ∧
      backingScale none = 1 ∧ backingScale (some 1) = 1 ∧
      (newGraphCanvasFl fl none a b).2 =
        { style_height := b.height, style_width := b.width,
          height := b.height, width := b.width } ∧
      (newGraphCanvasFl fl (some 1) a b).2 =
        { style_height := b.height, style_width := b.width,
          height := b.height, width := b.width } := by
  have hbs : backingScale (some s) = s := by simp [backingScale, h1]
  have hb1 : backingScale (some 1) = 1 := by simp [backingScale]
  have hb0 : backingScale none = 1 := rfl
  have hs0 : (0 : ℚ) ≤ s := le_trans zero_le_one (le_of_lt h1)
  -- the unscaled extents are below the scaled ones
  have hwle : w ≤ 2147483647 := by
    have : (w : ℚ) ≤ (ws : ℚ) := by
      rw [← hws, hw]
      exact le_mul_of_one_le_right (Nat.cast_nonneg w) (le_of_lt h1)
    exact le_trans (by exact_mod_cast this) hwb
  have hhle : h ≤ 2147483647 := by
    have : (h : ℚ) ≤ (hs : ℚ) := by
      rw [← hhs, hh]
      exact le_mul_of_one_le_right (Nat.cast_nonneg h) (le_of_lt h1)
    exact le_trans (by exact_mod_cast this) hhb
  have cw : canvasAttribute 300 b.width = b.width := by
    rw [hw]; exact canvasAttribute_natCast 300 w hwle
  have ch : canvasAttribute 150 b.height = b.height := by
    rw [hh]; exact canvasAttribute_natCast 150 h hhle
  have cws : canvasAttribute 300 (fl (b.width * s)) = b.width * s := by
    rw [hws, fl_natCast fl hfl ws hwb]; exact canvasAttribute_natCast 300 ws hwb
  have chs : canvasAttribute 150 (fl (b.height * s)) = b.height * s := by
    rw [hhs, fl_natCast fl hfl hs hhb]; exact canvasAttribute_natCast 150 hs hhb
  have hcan := newGraphCanvasFl_canvas_vertical fl (some s) a b hv
  have hcan0 := newGraphCanvasFl_canvas_vertical fl none a b hv
  have hcan1 := newGraphCanvasFl_canvas_vertical fl (some 1) a b hv
  have hst0 := newGraphCanvasFl_style fl none a b
  have hst1 := newGraphCanvasFl_style fl (some 1) a b
  rw [hbs, if_pos h1, cw, cws, if_pos h1, ch, chs] at hcan
  rw [hb0, if_neg (lt_irrefl _), cw, if_neg (lt_irrefl _), ch] at hcan0
  rw [hb1, if_neg (lt_irrefl _), cw, if_neg (lt_irrefl _), ch] at hcan1
  refine ⟨hbs, ?_, hcan.1, hcan.2, (newGraphCanvasFl_style fl _ a b).1,
    (newGraphCanvasFl_style fl _ a b).2, hb0, hb1, ?_, ?_⟩
  · rw [newGraphCanvasFl_options, hbs]
  · cases hc : (newGraphCanvasFl fl none a b).2 with
    | mk sh sw ch' cw' =>
      rw [hc] at hcan0 hst0
      simp only at hcan0 hst0
      rw [hcan0.1, hcan0.2, hst0.1, hst0.2]
  · cases hc : (newGraphCanvasFl fl (some 1) a b).2 with
    | mk sh sw ch' cw' =>
      rw [hc] at hcan1 hst1
      simp only at hcan1 hst1
      rw [hcan1.1, hcan1.2, hst1.1, hst1.2]

/-- Witness of C12 (amended): the default layout of one commit (width 30, height 60)
on a display of device pixel ratio 2. -/
theorem graphCanvasFl_vertical_backing_store_witness :
    (newGraphCanvasFl round64 (some 2) [⟨"c0", (0, 0), [⟨0, 0, 0⟩]⟩]
        { height := 60, width := 30, y_step := 20, x_step := 20,
          orientation := Orientation.vertical, dotRadius := 3, lineWidth := 2 }).2.width
      = (30 : ℚ) * 2 :=
  (graphCanvasFl_vertical_backing_store round64 round64_exact (some 2)
    [⟨"c0", (0, 0), [⟨0, 0, 0⟩]⟩]
    { height := 60, width := 30, y_step := 20, x_step := 20,
      orientation := Orientation.vertical, dotRadius := 3, lineWidth := 2 }
    2 30 60 60 120 rfl (by norm_num) (by norm_num) (by norm_num) (by norm_num) (by norm_num)
    (by norm_num) (by norm_num)).2.2.1

/-! ### Points of the drawing and the backing store, in double arithmetic -/

theorem canvasAttribute_isNat (dflt : ℕ) (hd : dflt ≤ 2147483647) (v : ℚ) :
    ∃ n : ℕ, n ≤ 2147483647 ∧ canvasAttribute dflt v = (n : ℚ) := by
  unfold canvasAttribute
  split_ifs with h
  · exact ⟨dflt, hd, rfl⟩
  · have h0 : 0 ≤ integerPart v % 4294967296 := Int.emod_nonneg _ (by norm_num)
    refine ⟨(integerPart v % 4294967296).toNat, by omega, ?_⟩
    have : ((integerPart v % 4294967296).toNat : ℤ) = integerPart v % 4294967296 :=
      Int.toNat_of_nonneg h0
    rw [← this]
    norm_cast

theorem drawRoutesFl_map (fl : ℚ → ℚ) (i : ℕ) (o : Options) (rs : List RawRoute) :
    drawRoutesFl fl (rs.map (fun a => newRoute i a o)) =
      rs.flatMap (fun r => (newRoute i r o).drawRouteFl fl) := by
  induction rs with
  | nil => rfl
  | cons r rs ih => simp only [List.map_cons, drawRoutesFl, ih, List.flatMap_cons]

theorem mem_drawFromFl (fl : ℚ → ℚ) (PI : ℚ) (o : Options) (op : CanvasOp) (d : ℕ)
    (data : List RawCommit) (h : op ∈ drawFromFl fl PI o d data) :
    ∃ i c, d ≤ i ∧ i < d + data.length ∧ c ∈ data ∧
      ((∃ r ∈ c.routes, op ∈ (newRoute i r o).drawRouteFl fl) ∨
        op ∈ (newCommit i c o).drawDotFl fl PI) := by
  induction data generalizing d with
  | nil => simp [drawFromFl] at h
  | cons x rest ih =>
    simp only [drawFromFl, List.mem_append] at h
    rcases h with (h | h) | h
    · refine ⟨d, x, le_refl _, by simp, List.mem_cons_self _ _, Or.inl ?_⟩
      have hm : op ∈ x.routes.flatMap (fun r => (newRoute d r o).drawRouteFl fl) := by
        rw [← drawRoutesFl_map]
        exact h
      obtain ⟨r, hr, hop⟩ := List.mem_flatMap.mp hm
      exact ⟨r, hr, hop⟩
    · exact ⟨d, x, le_refl _, by simp, List.mem_cons_self _ _, Or.inr h⟩
    · obtain ⟨i, c, h1, h2, h3, h4⟩ := ih (d + 1) h
      refine ⟨i, c, by omega, ?_, List.mem_cons_of_mem _ h3, h4⟩
      simp only [List.length_cons]
      omega

/-- The points of a route drawn in vertical orientation: the origin and the destination. -/
theorem point_of_mem_drawRouteFl_vertical (fl : ℚ → ℚ) (i : ℕ) (r : RawRoute) (o : Options)
    (ho : o.orientation = Orientation.vertical) (op : CanvasOp) (p : ℚ × ℚ)
    (h : op ∈ (newRoute i r o).drawRouteFl fl) (hp : op.point = some p) :
    p = (fl (fl (fl ((r.from_ : ℚ) + 1) * o.x_step) * o.scaleFactor),
          fl (fl (fl ((i : ℚ) + 1 / 2) * o.y_step) * o.scaleFactor)) ∨
      p = (fl (fl (fl ((r.to_ : ℚ) + 1) * o.x_step) * o.scaleFactor),
          fl (fl (fl (fl ((i : ℚ) + 1 / 2) + 1) * o.y_step) * o.scaleFactor)) := by
  simp only [Route.drawRouteFl, newRoute, ho] at h
  rw [List.mem_append, List.mem_append] at h
  rcases h with (h | h) | h
  · simp only [List.mem_cons, List.mem_singleton, List.not_mem_nil, or_false] at h
    rcases h with rfl | rfl | rfl
    · simp [CanvasOp.point] at hp
    · simp [CanvasOp.point] at hp
    · left
      simp only [CanvasOp.point, Option.some.injEq] at hp
      exact hp.symm
  · right
    split_ifs at h <;>
      · simp only [List.mem_singleton] at h
        subst h
        simp only [CanvasOp.point, Option.some.injEq] at hp
        exact hp.symm
  · simp only [List.mem_singleton] at h
    subst h
    simp [CanvasOp.point] at hp

/-- The point of a dot drawn in vertical orientation: its centre. -/
theorem point_of_mem_drawDotFl_vertical (fl : ℚ → ℚ) (PI : ℚ) (i : ℕ) (c : RawCommit)
    (o : Options) (ho : o.orientation = Orientation.vertical) (op : CanvasOp) (p : ℚ × ℚ)
    (h : op ∈ (newCommit i c o).drawDotFl fl PI) (hp : op.point = some p) :
    p = (fl (fl (fl ((c.dot.1 : ℚ) + 1) * o.x_step) * o.scaleFactor),
          fl (fl (fl ((i : ℚ) + 1 / 2) * o.y_step) * o.scaleFactor)) := by
  simp only [Commit.drawDotFl, newCommit, ho, List.mem_cons, List.mem_singleton,
    List.not_mem_nil, or_false] at h
  rcases h with rfl | rfl | rfl | rfl
  · simp [CanvasOp.point] at hp
  · simp [CanvasOp.point] at hp
  · simp only [CanvasOp.point, Option.some.injEq] at hp
    exact hp.symm
  · simp [CanvasOp.point] at hp

theorem graph_optionsFl_vertical (fl : ℚ → ℚ) (data : List RawCommit) (b : UserOptions)
    (hv : b.orientation ≠ some Orientation.horizontal) (hw : b.width = none)
    (hh : b.height = none) :
    (Graph.optionsFl fl data b).orientation = Orientation.vertical ∧
      (Graph.optionsFl fl data b).width =
        fl (fl (branchCountFl fl data + 1 / 2) * (Graph.optionsFl fl data b).x_step) ∧
      (Graph.optionsFl fl data b).height =
        fl (fl ((data.length : ℚ) + 2) * (Graph.optionsFl fl data b).y_step) := by
  rcases b with ⟨bh, bw, bys, bxs, bo, br, bl⟩
  simp only at hv hw hh
  subst hw hh
  cases bo with
  | none => simp [Graph.optionsFl, extend, Graph.defaults]
  | some o =>
    cases o with
    | vertical => simp [Graph.optionsFl, extend, Graph.defaults]
    | horizontal => exact absurd rfl hv

/-- A scaled coordinate `u * step * s` does not exceed the scaled extent `v * step * s`
when `0 <= u <= v`, for a monotone rounding. -/
theorem fl_scaled_le (fl : ℚ → ℚ) (hmono : Monotone fl) (h0 : fl 0 = 0) (u v st s : ℚ)
    (hu : 0 ≤ u) (huv : u ≤ v) (hst : 0 < st) (hs : 1 ≤ s) :
    0 ≤ fl (fl (u * st) * s) ∧ fl (fl (u * st) * s) ≤ fl (fl (v * st) * s) := by
  have hs0 : (0 : ℚ) ≤ s := le_trans zero_le_one hs
  have ha0 : 0 ≤ fl (u * st) := by
    rw [← h0]
    exact hmono (mul_nonneg hu hst.le)
  have hav : fl (u * st) ≤ fl (v * st) := hmono (mul_le_mul_of_nonneg_right huv hst.le)
  constructor
  · rw [← h0]
    exact hmono (mul_nonneg ha0 hs0)
  · exact hmono (mul_le_mul_of_nonneg_right hav hs0)

theorem coord_in_extent (fl : ℚ → ℚ) (hfl : ExactOnQuarterIntegers fl) (hmono : Monotone fl)
    (u v st s E : ℚ) (n : ℕ) (hn : n ≤ 2147483647) (hE : E = fl (v * st)) (hEn : E = (n : ℚ))
    (hu : 0 ≤ u) (huv : u ≤ v) (hst : 0 < st) (hs : 1 ≤ s) :
    0 ≤ fl (fl (u * st) * s) ∧
      fl (fl (u * st) * s) ≤ (if 1 < s then fl (E * s) else E) := by
  have h0 : fl 0 = 0 := by simpa using fl_natCast fl hfl 0 (by norm_num)
  obtain ⟨hnn, hle⟩ := fl_scaled_le fl hmono h0 u v st s hu huv hst hs
  refine ⟨hnn, ?_⟩
  split_ifs with h1
  · rw [hE]
    exact hle
  · have hs1 : s = 1 := le_antisymm (not_lt.mp h1) hs
    rw [hs1, mul_one, ← hE, mul_one] at hle
    rw [hEn, fl_natCast fl hfl n hn] at hle
    rw [hEn]
    rw [hs1, mul_one]
    exact hle

/-- C18 (as stated, refuted): with `x_step = 0.5` the width computed for the commit
`["c0", [0, 0], [[0, 0, 0]]]` (non-negative lanes, dot lane below `branchCount = 1`)
is `0.75`, which the canvas attribute holds as 0; in vertical orientation at scale
factor 1 the dot centre `(0.5, 10)` is outside the canvas of width 0. -/
theorem verticalFl_fractional_extent_outside :
    (∀ c ∈ [(⟨"c0", (0, 0), [⟨0, 0, 0⟩]⟩ : RawCommit)], ∀ r ∈ c.routes, 0 ≤ r.from_ ∧ 0 ≤ r.to_) ∧
      (∀ c ∈ [(⟨"c0", (0, 0), [⟨0, 0, 0⟩]⟩ : RawCommit)],
        0 ≤ c.dot.1 ∧ c.dot.1 < branchCount [⟨"c0", (0, 0), [⟨0, 0, 0⟩]⟩]) ∧
      (Graph.renderFl round64 none 3 [⟨"c0", (0, 0), [⟨0, 0, 0⟩]⟩]
        { noOptions with x_step := some (1 / 2) }).1 =
        { style_height := 60, style_width := 3 / 4, height := 60, width := 0 } ∧
      dotCentre (Graph.renderFl round64 none 3 [⟨"c0", (0, 0), [⟨0, 0, 0⟩]⟩]
        { noOptions with x_step := some (1 / 2) }).2 = some (1 / 2, 10) ∧
      ¬ (Graph.renderFl round64 none 3 [⟨"c0", (0, 0), [⟨0, 0, 0⟩]⟩]
        { noOptions with x_step := some (1 / 2) }).1.contains (1 / 2, 10) := by
  have hf : List.foldl branchCountCommit (-1) [⟨"c0", (0, 0), [⟨0, 0, 0⟩]⟩] = 0 := by decide
  have hc0 : get_color 0 = some "#e11d21" := by decide
  obtain ⟨r1, r12, r32, r3, r6, r10, r20, r30, r40, r60, _⟩ := round64_samples
  obtain ⟨_, _, _, _, _, _, _, _, _, _, r34, r14⟩ := round64_more
  have h60 : canvasAttribute 150 60 = 60 := by
    simpa using canvasAttribute_natCast 150 60 (by norm_num)
  have h0 : canvasAttribute 300 (3 / 4) = 0 := by
    simpa using canvasAttribute_eq 300 (3 / 4) 0 (by norm_num) (by norm_num) (by norm_num)
  have hopt : Graph.optionsFl round64 [⟨"c0", (0, 0), [⟨0, 0, 0⟩]⟩]
      { noOptions with x_step := some (1 / 2) } =
      { height := 60, width := 3 / 4, y_step := 20, x_step := 1 / 2,
        orientation := Orientation.vertical, dotRadius := 3, lineWidth := 2 } := by
    simp [-Prod.mk_zero_zero, Graph.optionsFl, branchCountFl, extend, noOptions, Graph.defaults, hf]
    norm_num [r1, r32, r3, r34, r60]
  have hcv : (Graph.renderFl round64 none 3 [⟨"c0", (0, 0), [⟨0, 0, 0⟩]⟩]
      { noOptions with x_step := some (1 / 2) }).1 =
      { style_height := 60, style_width := 3 / 4, height := 60, width := 0 } := by
    unfold Graph.renderFl
    rw [hopt]
    simp [newGraphCanvasFl, backingScale]
    norm_num [h60, h0]
  have hops : (Graph.renderFl round64 none 3 [⟨"c0", (0, 0), [⟨0, 0, 0⟩]⟩]
      { noOptions with x_step := some (1 / 2) }).2 =
      [CanvasOp.setLineWidth 2, CanvasOp.setStrokeStyle (some "#e11d21"), CanvasOp.beginPath,
       CanvasOp.moveTo (1 / 2) 10, CanvasOp.lineTo (1 / 2) 30, CanvasOp.stroke,
       CanvasOp.setFillStyle (some "#e11d21"), CanvasOp.beginPath,
       CanvasOp.arc (1 / 2) 10 3 0 6 true, CanvasOp.fill] := by
    unfold Graph.renderFl
    rw [hopt]
    simp [-Prod.mk_zero_zero, newGraphCanvasFl, backingScale,
      GraphCanvas.drawFl, drawFromFl, drawRoutesFl, Route.drawRouteFl, Commit.drawDotFl,
      newCommit, newRoute, hc0]
    norm_num [r1, r12, r32, r3, r6, r10, r30]
  refine ⟨by decide, by decide, hcv, ?_, ?_⟩
  · rw [hops]
    simp [dotCentre, List.findSome?]
  · rw [hcv]
    simp [CanvasElement.contains]

theorem branchCount_nonneg (data : List RawCommit) : 0 ≤ branchCount data := by
  have := le_foldl_max (routeLanes data) (-1)
  rw [branchCount_eq_foldl_max]
  omega

/-- C18 (amended): in vertical orientation and double arithmetic, when all lanes
are non-negative, every dot lane is below `branchCount`, the steps are positive,
the options supply neither width nor height, and the canvas attributes hold the
computed extents unchanged (the computed width and height, and their products
with the scale factor, are integers from 0 to 2147483647), then for every device
pixel ratio (scale factor `s >= 1`) every dot centre and every route origin and
destination of the drawing lies in the backing-store rectangle
`0 <= x <= canvas.width`, `0 <= y <= canvas.height`. -/
theorem vertical_points_inside_canvas (fl : ℚ → ℚ) (hfl : ExactOnQuarterIntegers fl)
    (hmono : Monotone fl) (devicePixelRatio : Option ℚ) (PI : ℚ) (data : List RawCommit)
    (b : UserOptions) (hv : b.orientation ≠ some Orientation.horizontal)
    (hw : b.width = none) (hh : b.height = none)
    (hx : 0 < (Graph.optionsFl fl data b).x_step) (hy : 0 < (Graph.optionsFl fl data b).y_step)
    (hr : ∀ c ∈ data, ∀ r ∈ c.routes, 0 ≤ r.from_ ∧ 0 ≤ r.to_)
    (hd : ∀ c ∈ data, 0 ≤ c.dot.1 ∧ c.dot.1 < branchCount data)
    (hN : data.length ≤ 2 ^ 40) (hB : branchCount data ≤ 2 ^ 40)
    (hcw : canvasAttribute 300 (Graph.optionsFl fl data b).width =
      (Graph.optionsFl fl data b).width)
    (hcws : canvasAttribute 300
        (fl ((Graph.optionsFl fl data b).width * backingScale devicePixelRatio)) =
      fl ((Graph.optionsFl fl data b).width * backingScale devicePixelRatio))
    (hch : canvasAttribute 150 (Graph.optionsFl fl data b).height =
      (Graph.optionsFl fl data b).height)
    (hchs : canvasAttribute 150
        (fl ((Graph.optionsFl fl data b).height * backingScale devicePixelRatio)) =
      fl ((Graph.optionsFl fl data b).height * backingScale devicePixelRatio))
    (op : CanvasOp) (hop : op ∈ (Graph.renderFl fl devicePixelRatio PI data b).2)
    (p : ℚ × ℚ) (hp : op.point = some p) :
    (Graph.renderFl fl devicePixelRatio PI data b).1.contains p := by
  obtain ⟨hO, hOw, hOh⟩ := graph_optionsFl_vertical fl data b hv hw hh
  have hs := one_le_backingScale devicePixelRatio
  have hcan := newGraphCanvasFl_canvas_vertical fl devicePixelRatio data
    (Graph.optionsFl fl data b) hO
  rw [hcw, hcws, hch, hchs] at hcan
  -- the extents are natural numbers
  obtain ⟨nw, hnw, hnw'⟩ := canvasAttribute_isNat 300 (by norm_num) (Graph.optionsFl fl data b).width
  obtain ⟨nh, hnh, hnh'⟩ := canvasAttribute_isNat 150 (by norm_num) (Graph.optionsFl fl data b).height
  rw [hcw] at hnw'
  rw [hch] at hnh'
  -- exact integers of the layout
  have hbc0 := branchCount_nonneg data
  have hbcq0 : (0 : ℚ) ≤ (branchCount data : ℚ) := by exact_mod_cast hbc0
  have hbcq : (branchCount data : ℚ) ≤ 2 ^ 40 := by exact_mod_cast hB
  have hNq : (data.length : ℚ) ≤ 2 ^ 40 := by exact_mod_cast hN
  have hN0 : (0 : ℚ) ≤ (data.length : ℚ) := Nat.cast_nonneg _
  have hbcFl : branchCountFl fl data = (branchCount data : ℚ) := by
    have e : ((data.foldl branchCountCommit (-1) : ℤ) : ℚ) + 1 = (branchCount data : ℚ) := by
      simp [branchCount]
    unfold branchCountFl
    rw [e]
    exact hfl _ (QuarterInteger.of_int _)
      (by rw [abs_of_nonneg hbcq0]; exact lt_of_le_of_lt hbcq (by norm_num))
  have hV : fl (branchCountFl fl data + 1 / 2) = (branchCount data : ℚ) + 1 / 2 := by
    rw [hbcFl]
    exact hfl _ ⟨4 * branchCount data + 2, by push_cast; ring⟩
      (by rw [abs_of_nonneg (by linarith)]; linarith)
  have hNN : fl ((data.length : ℚ) + 2) = (data.length : ℚ) + 2 :=
    hfl _ ⟨4 * (data.length : ℤ) + 8, by push_cast; ring⟩
      (by rw [abs_of_nonneg (by linarith)]; linarith)
  rw [hV] at hOw
  rw [hNN] at hOh
  -- the two bounds
  have hbx : ∀ l : ℤ, 0 ≤ l → l < branchCount data →
      0 ≤ fl (fl (fl ((l : ℚ) + 1) * (Graph.optionsFl fl data b).x_step) *
          backingScale devicePixelRatio) ∧
        fl (fl (fl ((l : ℚ) + 1) * (Graph.optionsFl fl data b).x_step) *
          backingScale devicePixelRatio) ≤
          (Graph.renderFl fl devicePixelRatio PI data b).1.width := by
    intro l hl0 hl
    have hlq0 : (0 : ℚ) ≤ (l : ℚ) := by exact_mod_cast hl0
    have hlq : (l : ℚ) + 1 ≤ (branchCount data : ℚ) := by exact_mod_cast hl
    have e : fl ((l : ℚ) + 1) = (l : ℚ) + 1 :=
      hfl _ ⟨4 * (l + 1), by push_cast; ring⟩
        (by rw [abs_of_nonneg (by linarith)]; linarith)
    rw [e]
    have := coord_in_extent fl hfl hmono ((l : ℚ) + 1) ((branchCount data : ℚ) + 1 / 2)
      (Graph.optionsFl fl data b).x_step (backingScale devicePixelRatio)
      (Graph.optionsFl fl data b).width nw hnw hOw hnw' (by linarith) (by linarith) hx hs
    simp only [Graph.renderFl, hcan.1]
    exact this
  have hby : ∀ u : ℚ, 0 ≤ u → u ≤ (data.length : ℚ) + 2 →
      0 ≤ fl (fl (u * (Graph.optionsFl fl data b).y_step) * backingScale devicePixelRatio) ∧
        fl (fl (u * (Graph.optionsFl fl data b).y_step) * backingScale devicePixelRatio) ≤
          (Graph.renderFl fl devicePixelRatio PI data b).1.height := by
    intro u hu0 hu
    have := coord_in_extent fl hfl hmono u ((data.length : ℚ) + 2)
      (Graph.optionsFl fl data b).y_step (backingScale devicePixelRatio)
      (Graph.optionsFl fl data b).height nh hnh hOh hnh' hu0 hu hy hs
    simp only [Graph.renderFl, hcan.2]
    exact this
  -- where the call comes from
  obtain ⟨o, hoeq⟩ : ∃ o, o =
      (newGraphCanvasFl fl devicePixelRatio data (Graph.optionsFl fl data b)).1.options := ⟨_, rfl⟩
  have ho_or : o.orientation = Orientation.vertical := by
    rw [hoeq, newGraphCanvasFl_options]; exact hO
  have ho_x : o.x_step = (Graph.optionsFl fl data b).x_step := by
    rw [hoeq, newGraphCanvasFl_options]
  have ho_y : o.y_step = (Graph.optionsFl fl data b).y_step := by
    rw [hoeq, newGraphCanvasFl_options]
  have ho_s : o.scaleFactor = backingScale devicePixelRatio := by
    rw [hoeq, newGraphCanvasFl_options]
  simp only [Graph.renderFl, GraphCanvas.drawFl, List.mem_cons, newGraphCanvasFl_data] at hop
  rcases hop with rfl | hop
  · simp [CanvasOp.point] at hp
  · rw [← hoeq] at hop
    obtain ⟨i, c, _, hi, hc, hsrc⟩ := mem_drawFromFl fl PI o op 0 data hop
    have hiq0 : (0 : ℚ) ≤ (i : ℚ) := Nat.cast_nonneg i
    have hiN : (i : ℚ) + 1 ≤ (data.length : ℚ) := by
      have : i + 1 ≤ data.length := by omega
      exact_mod_cast this
    have ei : fl ((i : ℚ) + 1 / 2) = (i : ℚ) + 1 / 2 :=
      hfl _ ⟨4 * (i : ℤ) + 2, by push_cast; ring⟩
        (by rw [abs_of_nonneg (by linarith)]; linarith)
    have ej : fl ((i : ℚ) + 1 / 2 + 1) = (i : ℚ) + 1 / 2 + 1 :=
      hfl _ ⟨4 * (i : ℤ) + 6, by push_cast; ring⟩
        (by rw [abs_of_nonneg (by linarith)]; linarith)
    rcases hsrc with ⟨r, hrc, hopr⟩ | hopd
    · obtain ⟨hf, ht⟩ := route_lane_lt_branchCount data c r hc hrc
      rcases point_of_mem_drawRouteFl_vertical fl i r o ho_or op p hopr hp with rfl | rfl
      · rw [ho_x, ho_y, ho_s, ei]
        have h1 := hbx r.from_ (hr c hc r hrc).1 hf
        have h2 := hby ((i : ℚ) + 1 / 2) (by linarith) (by linarith)
        exact ⟨h1.1, h1.2, h2.1, h2.2⟩
      · rw [ho_x, ho_y, ho_s, ei, ej]
        have h1 := hbx r.to_ (hr c hc r hrc).2 ht
        have h2 := hby ((i : ℚ) + 1 / 2 + 1) (by linarith) (by linarith)
        exact ⟨h1.1, h1.2, h2.1, h2.2⟩
    · rw [point_of_mem_drawDotFl_vertical fl PI i c o ho_or op p hopd hp, ho_x, ho_y, ho_s, ei]
      have h1 := hbx c.dot.1 (hd c hc).1 (hd c hc).2
      have h2 := hby ((i : ℚ) + 1 / 2) (by linarith) (by linarith)
      exact ⟨h1.1, h1.2, h2.1, h2.2⟩

theorem sample_optionsFl :
    Graph.optionsFl round64 [⟨"c0", (0, 0), [⟨0, 0, 0⟩]⟩] noOptions =
      { height := 60, width := 30, y_step := 20, x_step := 20,
        orientation := Orientation.vertical, dotRadius := 3, lineWidth := 2 } := by
  have hf : List.foldl branchCountCommit (-1) [⟨"c0", (0, 0), [⟨0, 0, 0⟩]⟩] = 0 := by decide
  obtain ⟨r1, _, r32, r3, _, _, _, r30, _, r60, _⟩ := round64_samples
  simp [-Prod.mk_zero_zero, Graph.optionsFl, branchCountFl, extend, noOptions, Graph.defaults, hf]
  norm_num [r1, r32, r3, r30, r60]

theorem sample_renderFl_arc :
    CanvasOp.arc 40 20 6 0 6 true ∈
      (Graph.renderFl round64 (some 2) 3 [⟨"c0", (0, 0), [⟨0, 0, 0⟩]⟩] noOptions).2 := by
  have hc0 : get_color 0 = some "#e11d21" := by decide
  obtain ⟨r1, r12, _, _, r6, r10, r20, _, r40, _, _⟩ := round64_samples
  simp [-Prod.mk_zero_zero, Graph.renderFl, sample_optionsFl, newGraphCanvasFl, backingScale,
    GraphCanvas.drawFl, drawFromFl, drawRoutesFl, Route.drawRouteFl, Commit.drawDotFl,
    newCommit, newRoute, hc0]
  norm_num [r1, r12, r6, r10, r20, r40]

/-- Witness of C18 (amended): the commit `["c0", [0, 0], [[0, 0, 0]]]`, no options,
device pixel ratio 2: the dot centre `(40, 20)` lies in the canvas of 60 by 120. -/
theorem vertical_points_inside_canvas_witness :
    (Graph.renderFl round64 (some 2) 3 [⟨"c0", (0, 0), [⟨0, 0, 0⟩]⟩] noOptions).1.contains
      (40, 20) :=
  vertical_points_inside_canvas round64 round64_exact round64_mono (some 2) 3
    [⟨"c0", (0, 0), [⟨0, 0, 0⟩]⟩] noOptions
    (by decide) rfl rfl
    (by rw [sample_optionsFl]; norm_num)
    (by rw [sample_optionsFl]; norm_num)
    (by decide) (by decide) (by norm_num)
    (by
      have hb : branchCount [⟨"c0", (0, 0), [⟨0, 0, 0⟩]⟩] = 1 := by decide
      rw [hb]; norm_num)
    (by
      rw [sample_optionsFl]
      simpa using canvasAttribute_natCast 300 30 (by norm_num))
    (by
      have h2 : backingScale (some 2) = 2 := by simp [backingScale]
      rw [sample_optionsFl, h2]
      have e : ((30 : ℚ) * 2) = 60 := by norm_num
      simp only [e, round64_samples.2.2.2.2.2.2.2.2.2.1]
      simpa using canvasAttribute_natCast 300 60 (by norm_num))
    (by
      rw [sample_optionsFl]
      simpa using canvasAttribute_natCast 150 60 (by norm_num))
    (by
      have h2 : backingScale (some 2) = 2 := by simp [backingScale]
      rw [sample_optionsFl, h2]
      have e : ((60 : ℚ) * 2) = 120 := by norm_num
      simp only [e, round64_samples.2.2.2.2.2.2.2.2.2.2]
      simpa using canvasAttribute_natCast 150 120 (by norm_num))
    (CanvasOp.arc 40 20 6 0 6 true) sample_renderFl_arc (40, 20) rfl

end CommitsGraph
